import Mathlib

/-!
Verification of the LibreGeoLens chat/streaming orchestration core.

This file gives a shallow embedding of the relevant parts of the source
(`libre_geo_lens/dock.py` and `libre_geo_lens/db.py`) and proves or refutes
the frozen specification claims about them.

Conventions used throughout:
- Python values flowing through the chunk parsers are modelled by the
  inductive type `PyVal` (None / bool / int / str / list / dict / object).
- Python exceptions are modelled with `Except Unit` (or explicit error
  payload types); a `.error` result corresponds to an exception escaping
  the modelled code.
- Machine floats in the image-downscale routine are modelled by `ℚ`; the
  one genuinely transcendental value (a `math.sqrt` result) is abstracted
  as a nonnegative parameter, since the code only compares it with 1.
-/


/-! ## Python value model for the chunk/response parsers

`parse_stream_chunk` and `parse_completion_response`
(`dock.py`, `LibreGeoLensDockWidget`) receive arbitrary provider payloads.
We model the payloads with a small Python-value universe.  `obj` models a
non-dict Python object carrying attributes (accessed via `getattr`, which
never raises when given a default, but which does not support the dict
method `.get`). -/

inductive PyVal where
  | pynone
  | pybool (b : Bool)
  | pyint (n : Int)
  | pystr (s : String)
  | pylist (xs : List PyVal)
  | pydict (fields : List (String × PyVal))
  | pyobj (attrs : List (String × PyVal))

namespace PyVal

/-- Python truthiness: `None`, `False`, `0`, `""`, `[]`, `{}` are falsy. -/
def truthy : PyVal → Bool
  | pynone => false
  | pybool b => b
  | pyint n => n != 0
  | pystr s => s ≠ ""
  | pylist xs => !xs.isEmpty
  | pydict fs => !fs.isEmpty
  | pyobj _ => true

/-- Association-list lookup used for dict keys and object attributes. -/
def lookupField : List (String × PyVal) → String → Option PyVal
  | [], _ => none
  | (k, v) :: rest, key => if k = key then some v else lookupField rest key

/-- Model of `getattr(v, name, None)`: attribute lookup with a `None`
default; never raises.  Plain dicts do not expose their keys as
attributes. -/
def getattrD (v : PyVal) (name : String) : PyVal :=
  match v with
  | pyobj attrs => (lookupField attrs name).getD pynone
  | _ => pynone

/-- Model of `v.get(name)`: only dicts support the `.get` method; calling
it on any other value raises (`AttributeError`). -/
def pyGet (v : PyVal) (name : String) : Except Unit PyVal :=
  match v with
  | pydict fs => .ok ((lookupField fs name).getD pynone)
  | _ => .error ()

/-- Model of `v[0]`: indexing the first element.  Lists yield their head
(the call sites are guarded by truthiness, so the list is nonempty);
strings yield their first character as a string; any other receiver
raises (`TypeError` / `KeyError`). -/
def pyIndexZero (v : PyVal) : Except Unit PyVal :=
  match v with
  | pylist (x :: _) => .ok x
  | pylist [] => .error ()
  | pystr s =>
    match s.data with
    | [] => .error ()
    | c :: _ => .ok (pystr (String.mk [c]))
  | _ => .error ()

/-- Model of `isinstance(v, dict)`. -/
def isDict : PyVal → Bool
  | pydict _ => true
  | _ => false

/-- Model of `v is None`. -/
def isNone : PyVal → Bool
  | pynone => true
  | _ => false

end PyVal

/-- A successful association-list lookup returns a structurally smaller
value; needed for termination of the content walker below. -/
theorem sizeOf_lookupField {fs : List (String × PyVal)} {k : String} {v : PyVal}
    (h : PyVal.lookupField fs k = some v) : sizeOf v < sizeOf fs := by
  induction fs with
  | nil => simp [PyVal.lookupField] at h
  | cons hd tl ih =>
    obtain ⟨a, b⟩ := hd
    simp only [PyVal.lookupField] at h
    by_cases hak : a = k
    · simp [hak] at h
      subst h
      simp
      omega
    · simp [hak] at h
      have := ih h
      simp
      omega

open PyVal

/-- Model of Python `"reason" in type_lower` (substring containment). -/
def strContains (hay needle : String) : Bool :=
  decide (needle.data <:+: hay.data)

/-! `_split_assistant_content` (dock.py lines 2691-2740): walks a content
payload collecting text fragments and reasoning fragments.  The Python
code appends to two shared lists while recursing; we return the two
concatenations, preserving traversal order.  The three mutual functions
mirror `handle` applied to one value, to each element of a list, and to
the body of a dict/object. -/

mutual

def splitHandle : PyVal → Bool → List String × List String
  | .pynone, _ => ([], [])
  | .pystr s, force => if force then ([], [s]) else ([s], [])
  | .pylist xs, force => splitHandleList xs force
  | .pydict fields, force =>
    -- fragment_type / type_lower / current_force_reasoning
    let typeLower :=
      match lookupField fields "type" with
      | some (.pystr t) => t.toLower
      | _ => ""
    let currentForce :=
      force || (if typeLower ≠ "" then strContains typeLower "reason" else false)
    let fromText :=
      match lookupField fields "text" with
      | some (.pystr t) =>
        if currentForce then (([] : List String), [t])
        else if typeLower ≠ "" && typeLower.startsWith "tool" then ([], [])
        else ([t], [])
      | _ => ([], [])
    let fromContent :=
      match hc : lookupField fields "content" with
      | some c => splitHandle c currentForce
      | none => ([], [])
    let fromReasoning :=
      match hr : lookupField fields "reasoning" with
      | some r => splitHandle r true
      | none => ([], [])
    let fromDelta :=
      match hd : lookupField fields "delta" with
      | some d => splitHandle d currentForce
      | none => ([], [])
    (fromText.1 ++ fromContent.1 ++ fromReasoning.1 ++ fromDelta.1,
     fromText.2 ++ fromContent.2 ++ fromReasoning.2 ++ fromDelta.2)
  | .pyobj attrs, force =>
    -- non-dict object branch: text / content / reasoning attributes
    let fromText :=
      match lookupField attrs "text" with
      | some (.pystr t) => if force then (([] : List String), [t]) else ([t], [])
      | _ => ([], [])
    let fromContent :=
      match hc : lookupField attrs "content" with
      | some c => splitHandle c force
      | none => ([], [])
    let fromReasoning :=
      match hr : lookupField attrs "reasoning" with
      | some r => splitHandle r true
      | none => ([], [])
    (fromText.1 ++ fromContent.1 ++ fromReasoning.1,
     fromText.2 ++ fromContent.2 ++ fromReasoning.2)
  | .pybool _, _ => ([], [])
  | .pyint _, _ => ([], [])
termination_by v _ => sizeOf v
decreasing_by
  all_goals simp_wf
  all_goals first
    | (have u := sizeOf_lookupField hc; omega)
    | (have u := sizeOf_lookupField hr; omega)
    | (have u := sizeOf_lookupField hd; omega)
    | omega

def splitHandleList : List PyVal → Bool → List String × List String
  | [], _ => ([], [])
  | x :: rest, force =>
    let hd := splitHandle x force
    let tl := splitHandleList rest force
    (hd.1 ++ tl.1, hd.2 ++ tl.2)
termination_by l _ => sizeOf l
decreasing_by
  all_goals simp_wf
  all_goals omega

end

/-- Result of `_split_assistant_content`: the joined text and reasoning. -/
def splitAssistantContent (content : PyVal) : String × String :=
  let parts := splitHandle content false
  (String.join parts.1, String.join parts.2)

/-- Model of `parse_stream_chunk` (dock.py lines 2742-2770). An `.error`
result models a Python exception escaping the function. -/
def parse_stream_chunk (chunk : PyVal) : Except Unit (String × String) := do
  if !chunk.truthy then
    return ("", "")
  -- choices = getattr(chunk, "choices", None); dict fallback via .get
  let choicesAttr := chunk.getattrD "choices"
  let choices ←
    if choicesAttr.isNone && chunk.isDict then
      chunk.pyGet "choices"
    else
      pure choicesAttr
  if !choices.truthy then
    return ("", "")
  let choice ← choices.pyIndexZero
  -- delta = getattr(choice, "delta", None) unless choice is a dict
  let delta ←
    if choice.isDict then
      choice.pyGet "delta"
    else
      pure (choice.getattrD "delta")
  if delta.isNone then
    return ("", "")
  let (content, reasoningPayload) ←
    match delta with
    | .pydict fs =>
      pure ((lookupField fs "content").getD .pynone,
            (lookupField fs "reasoning_content").getD .pynone)
    | _ =>
      pure (delta.getattrD "content", delta.getattrD "reasoning_content")
  let (text, reasoning) := splitAssistantContent content
  if reasoningPayload.truthy then
    let (extraText, extraReasoning) := splitAssistantContent reasoningPayload
    if extraReasoning ≠ "" then
      return (text, reasoning ++ extraReasoning)
    else if extraText ≠ "" then
      return (text, reasoning ++ extraText)
    else
      return (text, reasoning)
  else
    return (text, reasoning)

/-- Model of `parse_completion_response` (dock.py lines 2772-2796).  Note
that, unlike the stream-chunk parser, the message payload is read with
`message.get(...)` unconditionally, which raises when the message is not
a dict. -/
def parse_completion_response (response : PyVal) : Except Unit (String × String) := do
  if !response.truthy then
    return ("", "")
  let choicesAttr := response.getattrD "choices"
  let choices ←
    if choicesAttr.isNone && response.isDict then
      response.pyGet "choices"
    else
      pure choicesAttr
  if !choices.truthy then
    return ("", "")
  let choice ← choices.pyIndexZero
  let message ←
    if choice.isDict then
      choice.pyGet "message"
    else
      pure (choice.getattrD "message")
  if message.isNone then
    return ("", "")
  -- content = message.get("content"); raises unless message is a dict
  let content ← message.pyGet "content"
  let reasoningPayload ← message.pyGet "reasoning_content"
  let (text, reasoning) := splitAssistantContent content
  if reasoningPayload.truthy then
    let (extraText, extraReasoning) := splitAssistantContent reasoningPayload
    if extraReasoning ≠ "" then
      return (text, reasoning ++ extraReasoning)
    else if extraText ≠ "" then
      return (text, reasoning ++ extraText)
    else
      return (text, reasoning)
  else
    return (text, reasoning)


/-! ## MLLMStreamWorker.run (dock.py lines 71-173)

The worker is modelled as a pure function from the behaviour of its
environment to the ordered list of Qt signals it emits.  Environment
behaviour:

- `opens`: the result of `litellm.completion(..., stream=True)` — either
  an exception at the call, or the list of parsed chunks the iteration
  produces (each chunk already passed through `parse_stream_chunk`,
  giving a `(text, reasoning)` pair), together with an optional exception
  raised by the iteration/parsing after those chunks.
- `cancelAt`: the cooperative cancellation flag.  The worker polls
  `_cancel_requested` at well-defined points (once before iterating, once
  per pulled chunk, and once at the post-stream re-check); `cancelAt = some k`
  means the flag becomes set after `k` polls have returned false, so the
  poll with 0-based index `t` observes `true` iff `k ≤ t`.
- `buffered`: the behaviour of the non-streaming
  `litellm.completion` call plus `parse_completion_response` on its
  result.

The emitted `Sig.bufferedCall` marker records the exact point where the
non-streaming `litellm.completion` call is issued. -/

/-- Behaviour of the buffered (non-streaming) completion call. -/
inductive BufferedBeh where
  | callFail (e : Nat)        -- litellm.completion raises
  | parseFail (e : Nat)       -- parse_completion_response raises
  | ok (text reasoning : String)
  deriving DecidableEq

/-- Signals emitted by the worker, in order.  Payload fields mirror the
dictionaries the Python code passes to `emit`. -/
inductive Sig where
  | chunk (text reasoning : String)
  | streamFailed (e : Nat)
  | completed (responseText reasoningText : String)
      (streamSuccess : Bool) (streamError : Option Nat) (cancelled : Bool)
  | failed (streamError finalError unexpectedError : Option Nat)
  | bufferedCall
  | done
  deriving DecidableEq

/-- Input of one `run` execution. -/
structure WorkerInput where
  streamSupported : Bool
  opens : Except Nat (List (String × String) × Option Nat)
  cancelAt : Option Nat
  buffered : BufferedBeh

/-- Whether the cancellation poll with 0-based index `t` observes the
flag set. -/
def obsCancel (cancelAt : Option Nat) (t : Nat) : Bool :=
  match cancelAt with
  | none => false
  | some k => decide (k ≤ t)

/-- State after the streaming phase: accumulated texts, emitted signals,
the `cancelled` / `stream_success` / `stream_error` locals, and the number
of cancellation polls already made. -/
structure PhaseRes where
  resp : String
  reas : String
  sigs : List Sig
  cancelled : Bool
  streamSuccess : Bool
  streamError : Option Nat
  polls : Nat
  deriving DecidableEq

/-- The `for chunk in response_stream` loop (dock.py lines 97-107).
`t` is the index of the next cancellation poll. -/
def runLoop (cancelAt : Option Nat) :
    Nat → List (String × String) → String → String → PhaseRes
  | t, [], resp, reas =>
    ⟨resp, reas, [], false, false, none, t⟩
  | t, c :: rest, resp, reas =>
    if obsCancel cancelAt t then
      ⟨resp, reas, [], true, false, none, t + 1⟩
    else
      let resp1 := if c.1 ≠ "" then resp ++ c.1 else resp
      let reas1 := if c.2 ≠ "" then reas ++ c.2 else reas
      let emitted := if c.1 ≠ "" || c.2 ≠ "" then [Sig.chunk c.1 c.2] else []
      let res := runLoop cancelAt (t + 1) rest resp1 reas1
      { res with sigs := emitted ++ res.sigs }

/-- Result of the streaming phase (the inner `try` at dock.py lines
81-121). -/
def streamPhase (inp : WorkerInput) : PhaseRes :=
  match inp.opens with
  | .error e =>
    -- the streaming call itself raised: stream_failed is emitted
    ⟨"", "", [Sig.streamFailed e], false, false, some e, 0⟩
  | .ok (chunks, tailErr) =>
    if obsCancel inp.cancelAt 0 then
      -- cancel observed before iterating (dock.py line 89)
      ⟨"", "", [], true, false, none, 1⟩
    else
      let res := runLoop inp.cancelAt 1 chunks "" ""
      if res.cancelled then
        res
      else
        match tailErr with
        | some e =>
          -- the iteration raised after the listed chunks
          { res with sigs := res.sigs ++ [Sig.streamFailed e],
                     streamSuccess := false, streamError := some e }
        | none =>
          -- `if not cancelled: stream_success = True` (lines 113-114)
          { res with streamSuccess := true }

/-- The tail of `run` after the streaming phase (dock.py lines 123-173):
the final cancellation re-check, the terminal emission, and `done`. -/
def finishRun (inp : WorkerInput) (ph : PhaseRes) : List Sig :=
  -- line 123: cancelled = cancelled or self._cancel_requested
  if ph.cancelled || obsCancel inp.cancelAt ph.polls then
    ph.sigs ++ [Sig.completed ph.resp ph.reas ph.streamSuccess ph.streamError true,
                Sig.done]
  else if !ph.streamSuccess then
    match ph.streamError with
    | some e =>
      -- dock.py lines 136-141: a stream error terminates Failed without
      -- any buffered attempt
      ph.sigs ++ [Sig.failed (some e) none none, Sig.done]
    | none =>
      match inp.buffered with
      | .callFail e =>
        ph.sigs ++ [Sig.bufferedCall, Sig.failed none (some e) none, Sig.done]
      | .parseFail e =>
        -- parse_completion_response raised: caught only by the outermost
        -- handler (dock.py lines 167-171)
        ph.sigs ++ [Sig.bufferedCall, Sig.failed none none (some e), Sig.done]
      | .ok text reasoning =>
        ph.sigs ++ [Sig.bufferedCall,
                    Sig.completed text reasoning ph.streamSuccess ph.streamError false,
                    Sig.done]
  else
    ph.sigs ++ [Sig.completed ph.resp ph.reas ph.streamSuccess ph.streamError false,
                Sig.done]

/-- Model of `MLLMStreamWorker.run` (dock.py lines 71-173): the list of
signals emitted, in order.  The trailing `done` mirrors the `finally`
block. -/
def workerRun (inp : WorkerInput) : List Sig :=
  if inp.streamSupported then
    finishRun inp (streamPhase inp)
  else
    finishRun inp ⟨"", "", [], false, false, none, 0⟩

/-- Terminal signals: `completed` or `failed`. -/
def Sig.isTerminal : Sig → Bool
  | .completed _ _ _ _ _ => true
  | .failed _ _ _ => true
  | _ => false

/-- Recognizer for the `done` signal. -/
def Sig.isDone : Sig → Bool
  | .done => true
  | _ => false

/-- Recognizer for `completed` signals. -/
def Sig.isCompleted : Sig → Bool
  | .completed _ _ _ _ _ => true
  | _ => false

/-- Chunk signals the loop emits for a (parsed) chunk list: one signal
per chunk with nonempty text or reasoning. -/
def chunkSigs (l : List (String × String)) : List Sig :=
  l.filterMap (fun c => if c.1 ≠ "" || c.2 ≠ "" then some (Sig.chunk c.1 c.2) else none)

/-- Accumulated response text over a chunk list. -/
def accTexts : List (String × String) → String
  | [] => ""
  | c :: rest => c.1 ++ accTexts rest

/-- Accumulated reasoning text over a chunk list. -/
def accReas : List (String × String) → String
  | [] => ""
  | c :: rest => c.2 ++ accReas rest

theorem runLoop_sigs_aux (cancelAt : Option Nat) (cs : List (String × String)) :
    ∀ t resp reas, ∀ g ∈ (runLoop cancelAt t cs resp reas).sigs,
      g.isTerminal = false ∧ g.isDone = false ∧ g ≠ Sig.bufferedCall := by
  induction cs with
  | nil =>
    intro t resp reas g hg
    simp [runLoop] at hg
  | cons c rest ih =>
    intro t resp reas g hg
    rw [runLoop] at hg
    by_cases hobs : obsCancel cancelAt t = true
    · simp [hobs] at hg
    · simp only [hobs] at hg
      simp only [Bool.false_eq_true, if_false, List.mem_append] at hg
      rcases hg with hg | hg
      · have hgc : g = Sig.chunk c.1 c.2 := by
          by_cases hne : (c.1 ≠ "" || c.2 ≠ "") = true <;> simp [hne] at hg <;> tauto
        subst hgc
        exact ⟨rfl, rfl, by simp⟩
      · exact ih _ _ _ g hg

theorem streamPhase_sigs_aux (inp : WorkerInput) :
    ∀ g ∈ (streamPhase inp).sigs,
      g.isTerminal = false ∧ g.isDone = false ∧ g ≠ Sig.bufferedCall := by
  intro g hg
  unfold streamPhase at hg
  rcases hop : inp.opens with e | ⟨chunks, tailErr⟩
  · rw [hop] at hg
    simp at hg
    subst hg
    exact ⟨rfl, rfl, by simp⟩
  · rw [hop] at hg
    by_cases hobs : obsCancel inp.cancelAt 0 = true
    · simp [hobs] at hg
    · simp only [hobs, Bool.false_eq_true, if_false] at hg
      by_cases hc : (runLoop inp.cancelAt 1 chunks "" "").cancelled = true
      · simp only [hc, if_true] at hg
        exact runLoop_sigs_aux _ _ _ _ _ g hg
      · simp only [hc, Bool.false_eq_true, if_false] at hg
        rcases tailErr with _ | e
        · simp at hg
          exact runLoop_sigs_aux _ _ _ _ _ g hg
        · simp at hg
          rcases hg with hg | hg
          · exact runLoop_sigs_aux _ _ _ _ _ g hg
          · subst hg
            exact ⟨rfl, rfl, by simp⟩

theorem finishRun_filter_spec (inp : WorkerInput) (ph : PhaseRes)
    (hno : ∀ g ∈ ph.sigs, g.isTerminal = false ∧ g.isDone = false) :
    ((finishRun inp ph).filter Sig.isDone).length = 1 ∧
    ((finishRun inp ph).filter (fun g => g.isTerminal || g.isDone)).map Sig.isDone
      = [false, true] ∧
    (finishRun inp ph).getLast? = some Sig.done := by
  have hT : ph.sigs.filter (fun g => g.isTerminal || g.isDone) = [] := by
    rw [List.filter_eq_nil_iff]
    intro a ha
    simp [(hno a ha).1, (hno a ha).2]
  have hD : ph.sigs.filter Sig.isDone = [] := by
    rw [List.filter_eq_nil_iff]
    intro a ha
    simp [(hno a ha).2]
  have hsplitTD : ∀ l, List.filter (fun g => g.isTerminal || g.isDone) (ph.sigs ++ l)
      = List.filter (fun g => g.isTerminal || g.isDone) l := by
    intro l
    rw [List.filter_append, hT, List.nil_append]
  have hsplitD : ∀ l, List.filter Sig.isDone (ph.sigs ++ l)
      = List.filter Sig.isDone l := by
    intro l
    rw [List.filter_append, hD, List.nil_append]
  have hlast : ∀ l : List Sig, l ≠ [] → (ph.sigs ++ l).getLast? = l.getLast? := by
    intro l hl
    rw [List.getLast?_append]
    cases l with
    | nil => exact absurd rfl hl
    | cons x xs =>
      have : (x :: xs).getLast?.isSome := by simp [List.getLast?_isSome]
      rcases Option.isSome_iff_exists.mp this with ⟨v, hv⟩
      rw [hv]
      rfl
  have key : ∀ l : List Sig,
      List.filter Sig.isDone l = [Sig.done] →
      List.map Sig.isDone (List.filter (fun g => g.isTerminal || g.isDone) l)
        = [false, true] →
      l.getLast? = some Sig.done →
      (List.filter Sig.isDone (ph.sigs ++ l)).length = 1 ∧
      List.map Sig.isDone (List.filter (fun g => g.isTerminal || g.isDone) (ph.sigs ++ l))
        = [false, true] ∧
      (ph.sigs ++ l).getLast? = some Sig.done := by
    intro l h1 h2 h3
    refine ⟨by rw [hsplitD, h1]; rfl, by rw [hsplitTD, h2], ?_⟩
    rw [hlast _ ?_, h3]
    rintro rfl
    simp at h3
  unfold finishRun
  by_cases hcan : (ph.cancelled || obsCancel inp.cancelAt ph.polls) = true
  · rw [if_pos hcan]
    exact key [Sig.completed ph.resp ph.reas ph.streamSuccess ph.streamError true,
               Sig.done] rfl rfl rfl
  · rw [if_neg hcan]
    by_cases hss : (!ph.streamSuccess) = true
    · rw [if_pos hss]
      rcases hse : ph.streamError with _ | e
      · simp only [hse]
        rcases hb : inp.buffered with e | e | ⟨t, r⟩ <;> simp only [hb]
        · exact key [Sig.bufferedCall, Sig.failed none (some e) none, Sig.done] rfl rfl rfl
        · exact key [Sig.bufferedCall, Sig.failed none none (some e), Sig.done] rfl rfl rfl
        · exact key [Sig.bufferedCall,
                     Sig.completed t r ph.streamSuccess none false, Sig.done] rfl rfl rfl
      · simp only [hse]
        exact key [Sig.failed (some e) none none, Sig.done] rfl rfl rfl
    · rw [if_neg hss]
      exact key [Sig.completed ph.resp ph.reas ph.streamSuccess ph.streamError false,
                 Sig.done] rfl rfl rfl

/-- C5: on every execution path of the worker the `done` signal fires
exactly once, the execution emits exactly one terminal notification
(`completed` or `failed`) and it directly precedes `done`, which is the
final signal; the path where an unexpected exception escapes all other
handling (`parse_completion_response` raising) still terminates with a
Failed notification carrying the unexpected error, followed by `done`. -/
theorem worker_done_fires_exactly_once (inp : WorkerInput) :
    ((workerRun inp).filter Sig.isDone).length = 1 ∧
    ((workerRun inp).filter (fun g => g.isTerminal || g.isDone)).map Sig.isDone
      = [false, true] ∧
    (workerRun inp).getLast? = some Sig.done ∧
    workerRun ⟨false, .ok ([], none), none, .parseFail 5⟩
      = [Sig.bufferedCall, Sig.failed none none (some 5), Sig.done] := by
  refine ⟨?_, ?_, ?_, rfl⟩ <;>
  · unfold workerRun
    by_cases hss : inp.streamSupported = true
    · simp only [hss, if_true]
      have := finishRun_filter_spec inp (streamPhase inp)
        (fun g hg => ⟨(streamPhase_sigs_aux inp g hg).1, (streamPhase_sigs_aux inp g hg).2.1⟩)
      tauto
    · simp only [hss]
      have := finishRun_filter_spec inp ⟨"", "", [], false, false, none, 0⟩
        (fun g hg => by simp at hg)
      simp only [Bool.false_eq_true, if_false]
      tauto

theorem str_append_empty (s : String) : s ++ "" = s := by
  cases s with
  | mk data =>
    show String.mk (data ++ []) = String.mk data
    rw [List.append_nil]

theorem str_empty_append (s : String) : "" ++ s = s := by
  cases s with
  | mk data =>
    show String.mk ([] ++ data) = String.mk data
    rw [List.nil_append]

theorem str_append_assoc (a b c : String) : a ++ b ++ c = a ++ (b ++ c) := by
  cases a with
  | mk da =>
    cases b with
    | mk db =>
      cases c with
      | mk dc =>
        show String.mk (da ++ db ++ dc) = String.mk (da ++ (db ++ dc))
        rw [List.append_assoc]

/-- C1 counterexample input: streaming supported, the streaming call
raises immediately (error token 7), no cancellation, and a buffered call
that would succeed with "hi" if it were ever issued. -/
def c1Input : WorkerInput :=
  ⟨true, .error 7, none, .ok "hi" ""⟩

/-- C1 (counterexample): with a provider whose stream call raises
immediately and a buffered call that would succeed, the worker emits the
stream-failure event and then terminates Failed — it never issues the
buffered call and never completes, contradicting the claimed
streaming-to-buffered fallback. -/
theorem stream_error_no_buffered_fallback :
    workerRun c1Input
      = [Sig.streamFailed 7, Sig.failed (some 7) none none, Sig.done] ∧
    Sig.bufferedCall ∉ workerRun c1Input ∧
    (workerRun c1Input).filter Sig.isCompleted = [] := by
  refine ⟨rfl, ?_, rfl⟩
  intro hmem
  rw [show workerRun c1Input
        = [Sig.streamFailed 7, Sig.failed (some 7) none none, Sig.done] from rfl] at hmem
  simp at hmem

/-- C1 (amended): if the stream raises before cancellation and before
success, the worker emits a stream-failure event carrying the error and
then terminates Failed carrying that stream error, issuing no buffered
call; the single buffered call is issued only when streaming is not
supported (and cancellation was not requested), in which case a
successful buffered call terminates the request Completed with the
buffered response text. -/
theorem stream_error_fails_buffered_only_if_unsupported
    (inp1 inp2 : WorkerInput) (e : Nat) (t r : String)
    (h1 : inp1.streamSupported = true) (h2 : inp1.opens = .error e)
    (h3 : obsCancel inp1.cancelAt 0 = false)
    (h4 : inp2.streamSupported = false)
    (h5 : obsCancel inp2.cancelAt 0 = false)
    (h6 : inp2.buffered = .ok t r) :
    workerRun inp1 = [Sig.streamFailed e, Sig.failed (some e) none none, Sig.done] ∧
    Sig.bufferedCall ∉ workerRun inp1 ∧
    workerRun inp2
      = [Sig.bufferedCall, Sig.completed t r false none false, Sig.done] := by
  have e1 : workerRun inp1
      = [Sig.streamFailed e, Sig.failed (some e) none none, Sig.done] := by
    unfold workerRun streamPhase finishRun
    rw [if_pos h1, h2]
    simp [h3]
  have e2 : workerRun inp2
      = [Sig.bufferedCall, Sig.completed t r false none false, Sig.done] := by
    unfold workerRun finishRun
    rw [if_neg (by rw [h4]; simp)]
    simp [h5, h6]
  refine ⟨e1, ?_, e2⟩
  rw [e1]
  simp

/-- Witness for the amended C1 theorem at concrete inputs. -/
theorem stream_error_fails_buffered_only_if_unsupported_witness :
    (WorkerInput.streamSupported ⟨true, .error 3, none, .ok "x" "y"⟩ = true ∧
     WorkerInput.streamSupported ⟨false, .ok ([], none), none, .ok "hello" ""⟩ = false) ∧
    (workerRun ⟨true, .error 3, none, .ok "x" "y"⟩
       = [Sig.streamFailed 3, Sig.failed (some 3) none none, Sig.done] ∧
     Sig.bufferedCall ∉ workerRun ⟨true, .error 3, none, .ok "x" "y"⟩ ∧
     workerRun ⟨false, .ok ([], none), none, .ok "hello" ""⟩
       = [Sig.bufferedCall, Sig.completed "hello" "" false none false, Sig.done]) :=
  ⟨⟨rfl, rfl⟩,
   stream_error_fails_buffered_only_if_unsupported
     ⟨true, .error 3, none, .ok "x" "y"⟩ ⟨false, .ok ([], none), none, .ok "hello" ""⟩
     3 "hello" "" rfl rfl rfl rfl rfl rfl⟩

theorem runLoop_no_cancel (k : Nat) (cs : List (String × String)) :
    ∀ t resp reas, t + cs.length ≤ k →
      runLoop (some k) t cs resp reas
        = ⟨resp ++ accTexts cs, reas ++ accReas cs, chunkSigs cs,
           false, false, none, t + cs.length⟩ := by
  induction cs with
  | nil =>
    intro t resp reas _
    simp [runLoop, accTexts, accReas, chunkSigs, str_append_empty]
  | cons c rest ih =>
    intro t resp reas h
    have hobs : obsCancel (some k) t = false := by
      simp only [obsCancel, decide_eq_false_iff_not]
      simp at h
      omega
    rw [runLoop, hobs]
    simp only [Bool.false_eq_true, if_false]
    rw [ih (t + 1) _ _ (by simp at h ⊢; omega)]
    have hresp : (if c.1 ≠ "" then resp ++ c.1 else resp) = resp ++ c.1 := by
      by_cases hc : c.1 = "" <;> simp [hc, str_append_empty]
    have hreas : (if c.2 ≠ "" then reas ++ c.2 else reas) = reas ++ c.2 := by
      by_cases hc : c.2 = "" <;> simp [hc, str_append_empty]
    rw [hresp, hreas]
    simp only [accTexts, accReas, chunkSigs, List.filterMap_cons, List.length_cons,
               PhaseRes.mk.injEq]
    and_intros <;>
      first
        | rw [str_append_assoc]
        | omega
        | (by_cases hc : ¬c.1 = "" ∨ ¬c.2 = "" <;> simp [hc])
        | rfl
        | trivial

theorem runLoop_cancel (k : Nat) (cs : List (String × String)) :
    ∀ t resp reas, t ≤ k → k < t + cs.length →
      runLoop (some k) t cs resp reas
        = ⟨resp ++ accTexts (cs.take (k - t)), reas ++ accReas (cs.take (k - t)),
           chunkSigs (cs.take (k - t)), true, false, none, k + 1⟩ := by
  induction cs with
  | nil =>
    intro t resp reas ht h
    simp at h
    omega
  | cons c rest ih =>
    intro t resp reas ht h
    by_cases hkt : k ≤ t
    · have hkeq : k = t := le_antisymm hkt ht
      have hobs : obsCancel (some k) t = true := by
        simp [obsCancel, hkt]
      rw [runLoop, hobs]
      simp [hkeq, accTexts, accReas, chunkSigs, str_append_empty]
    · have hobs : obsCancel (some k) t = false := by
        simp only [obsCancel, decide_eq_false_iff_not]
        omega
      rw [runLoop, hobs]
      simp only [Bool.false_eq_true, if_false]
      rw [ih (t + 1) _ _ (by omega) (by simp at h ⊢; omega)]
      have hresp : (if c.1 ≠ "" then resp ++ c.1 else resp) = resp ++ c.1 := by
        by_cases hc : c.1 = "" <;> simp [hc, str_append_empty]
      have hreas : (if c.2 ≠ "" then reas ++ c.2 else reas) = reas ++ c.2 := by
        by_cases hc : c.2 = "" <;> simp [hc, str_append_empty]
      rw [hresp, hreas]
      have htake : (c :: rest).take (k - t) = c :: rest.take (k - (t + 1)) := by
        have : k - t = (k - (t + 1)) + 1 := by omega
        rw [this]
        rfl
      rw [htake]
      simp only [accTexts, accReas, chunkSigs, List.filterMap_cons, List.length_cons,
                 PhaseRes.mk.injEq]
      and_intros <;>
        first
          | rw [str_append_assoc]
          | omega
          | (by_cases hc : ¬c.1 = "" ∨ ¬c.2 = "" <;> simp [hc])
          | rfl
          | trivial

/-- Cancellation observed at poll `k` (before the iteration starts when
`k = 0`, between chunks when `1 ≤ k ≤ n`, or at the post-stream re-check
when `k = n + 1`) terminates the worker Cancelled, emitting exactly the
chunks received before the cancellation and preserving the accumulated
text and reasoning. -/
theorem workerRun_cancel_spec (cs : List (String × String)) (k : Nat)
    (bu : BufferedBeh) (hk : k ≤ cs.length + 1) :
    workerRun ⟨true, .ok (cs, none), some k, bu⟩
      = chunkSigs (cs.take (k - 1))
        ++ [Sig.completed (accTexts (cs.take (k - 1))) (accReas (cs.take (k - 1)))
              (decide (cs.length < k)) none true, Sig.done] := by
  rcases Nat.eq_zero_or_pos k with hk0 | hkpos
  · subst hk0
    rfl
  · unfold workerRun streamPhase
    simp only [if_true]
    have hobs0 : obsCancel (some k) 0 = false := by
      simp only [obsCancel, decide_eq_false_iff_not]
      omega
    rw [hobs0]
    simp only [Bool.false_eq_true, if_false]
    by_cases hkn : k ≤ cs.length
    · -- cancellation strikes during the loop
      rw [runLoop_cancel k cs 1 "" "" hkpos (by omega)]
      simp only [if_true]
      unfold finishRun
      simp only [Bool.true_or, if_pos]
      rw [str_empty_append, str_empty_append]
      have : decide (cs.length < k) = false := by
        simp
        omega
      rw [this]
    · -- the whole stream is consumed; the post-stream re-check cancels
      have hkeq : k = cs.length + 1 := by omega
      rw [runLoop_no_cancel k cs 1 "" "" (by omega)]
      simp only [Bool.false_eq_true, if_false]
      unfold finishRun
      have hobsn : obsCancel (some k) (1 + cs.length) = true := by
        simp [obsCancel]
        omega
      simp only [hobsn, Bool.or_true, if_pos]
      rw [str_empty_append, str_empty_append]
      have h1 : cs.take (k - 1) = cs := by
        rw [hkeq]
        simp
      have h2 : decide (cs.length < k) = true := by
        simp
        omega
      rw [h1, h2]

/-! ## Dock-side request lifecycle (dock.py, `LibreGeoLensDockWidget`)

We model the state the cancellation and finalization paths touch:
the conversation message list, the rendered entries, the registry of
active request contexts, and the persisted interaction log.  Messages are
projected to their role and text (image parts play no role in the claims
below); the UI-only effects (rendering, message boxes, signal wiring,
thread teardown, the GeoJSON feature update) are omitted.  The summary
call result is abstracted as a `summaryText` parameter: the code wraps
the litellm summary call in try/except and uses the extracted text only
when nonempty. -/

/-- The interrupt marker appended on cancel-with-output
(dock.py line 3358). -/
def stopPrompt : String := "I have stopped your response"

/-- One conversation message, projected to role and text. -/
structure Msg where
  role : String
  text : String
  deriving DecidableEq

/-- A rendered (transient) chat entry. -/
structure Entry where
  displayId : Nat
  responseStream : String
  reasoningStream : String
  response : String
  reasoningFinal : Option String
  isPending : Bool
  hasReasoning : Bool
  deriving DecidableEq

/-- The per-request context stored in `active_streams`. -/
structure ReqContext where
  prompt : String
  selectedApi : String
  selectedModel : String
  chipIds : List Nat
  chipModes : List String
  userMessageIndex : Nat
  handledCancel : Bool
  readyForCleanup : Bool
  deriving DecidableEq

/-- A persisted interaction row, as written by `save_interaction` from
`_finalize_interaction`. -/
structure InteractionRow where
  textInput : String
  textOutput : String
  chipsSeq : List Nat
  mllmService : String
  mllmModel : String
  chipModes : List String
  reasoningOutput : Option String
  deriving DecidableEq

/-- The dock state touched by the streaming lifecycle. -/
structure DockState where
  conversation : List Msg
  rendered : List Entry
  active : List (Nat × ReqContext)
  savedInteractions : List InteractionRow
  chatInteractions : List Nat
  chatSummary : String
  promptInput : String
  deriving DecidableEq

/-- Model of `_get_rendered_entry` (dock.py lines 3388-3392). -/
def getRenderedEntry (st : DockState) (entryId : Nat) : Option Entry :=
  st.rendered.find? (fun en => en.displayId = entryId)

/-- Replace the first rendered entry with the given display id (the
Python code mutates the object found by `_get_rendered_entry`; display
ids are UUIDs, hence unique). -/
def updateFirstEntry : List Entry → Nat → (Entry → Entry) → List Entry
  | [], _, _ => []
  | en :: rest, entryId, f =>
    if en.displayId = entryId then f en :: rest
    else en :: updateFirstEntry rest entryId f

/-- Remove the first rendered entry with the given display id
(`self.rendered_interactions.remove(pending_entry)`). -/
def removeFirstEntry : List Entry → Nat → List Entry
  | [], _ => []
  | en :: rest, entryId =>
    if en.displayId = entryId then rest
    else en :: removeFirstEntry rest entryId

/-- Set the `handled_cancel` flag on a request context. -/
def markHandled (c : ReqContext) : ReqContext :=
  { c with handledCancel := true }

/-- Set the `ready_for_cleanup` flag on a request context. -/
def markReady (c : ReqContext) : ReqContext :=
  { c with readyForCleanup := true }

/-- Update the context stored under the given entry id in
`active_streams`. -/
def setActiveCtx (st : DockState) (entryId : Nat) (f : ReqContext → ReqContext) :
    DockState :=
  { st with active :=
      st.active.map (fun p => if p.1 = entryId then (p.1, f p.2) else p) }

/-- Model of `_handle_stream_chunk` (dock.py lines 3394-3409). -/
def handleStreamChunk (st : DockState) (entryId : Nat) (textChunk reasoningChunk : String) :
    DockState :=
  match getRenderedEntry st entryId with
  | none => st
  | some en =>
    if !en.isPending then st
    else
      { st with rendered := updateFirstEntry st.rendered entryId (fun e2 =>
          { e2 with
            responseStream :=
              if textChunk ≠ "" then e2.responseStream ++ textChunk
              else e2.responseStream,
            reasoningStream :=
              if reasoningChunk ≠ "" then e2.reasoningStream ++ reasoningChunk
              else e2.reasoningStream,
            hasReasoning :=
              if reasoningChunk ≠ "" then true else e2.hasReasoning }) }

/-- Model of `_finalize_interaction` (dock.py lines 3629-3683): finalize
the entry, append the assistant message, persist the interaction row,
append it to the chat, and apply the (best-effort) summary when its
extracted text is nonempty. -/
def finalizeInteraction (st : DockState) (entryId : Nat) (ctx : ReqContext)
    (responseText reasoningText summaryText : String) : DockState :=
  let st1 := { st with rendered := updateFirstEntry st.rendered entryId (fun e2 =>
      { e2 with
        response := responseText,
        reasoningFinal := if reasoningText ≠ "" then some reasoningText else none,
        responseStream := "",
        reasoningStream := "",
        isPending := false,
        hasReasoning := reasoningText ≠ "" }) }
  let st2 := { st1 with conversation :=
      st1.conversation ++ [Msg.mk "assistant" responseText] }
  let row := InteractionRow.mk ctx.prompt responseText ctx.chipIds ctx.selectedApi
      ctx.selectedModel ctx.chipModes
      (if reasoningText ≠ "" then some reasoningText else none)
  let st3 := { st2 with savedInteractions := st2.savedInteractions ++ [row] }
  -- add_new_interaction_to_chat: append the fresh row id (autoincrement)
  let st4 := { st3 with chatInteractions :=
      st3.chatInteractions ++ [st3.savedInteractions.length] }
  if summaryText ≠ "" then { st4 with chatSummary := summaryText } else st4

/-- Model of the pending-entry search in `cancel_active_mllm_request`
(dock.py lines 3305-3314): the last rendered entry that is pending and
has a live context in `active_streams`. -/
def findCancelTarget (st : DockState) : Option (Entry × ReqContext) :=
  match st.rendered.reverse.find? (fun en =>
      en.isPending && (st.active.find? (fun p => p.1 = en.displayId)).isSome) with
  | none => none
  | some en =>
    match st.active.find? (fun p => p.1 = en.displayId) with
    | none => none
    | some p => some (en, p.2)

/-- Model of `cancel_active_mllm_request` (dock.py lines 3296-3386).
The worker-side `request_cancel` invocation and signal disconnection are
not part of the state; `summaryText` abstracts the summary sub-call made
by `_finalize_interaction` on the cancel-with-output path. -/
def cancelActiveMllmRequest (st : DockState) (summaryText : String) : DockState :=
  if st.active.isEmpty then st
  else
    match findCancelTarget st with
    | none => st
    | some (en, ctx) =>
      let entryId := en.displayId
      let hasStreamOutput := en.responseStream ≠ "" || en.reasoningStream ≠ ""
      if hasStreamOutput then
        let st1 := setActiveCtx st entryId markHandled
        let st2 := finalizeInteraction st1 entryId ctx
          en.responseStream en.reasoningStream summaryText
        { st2 with conversation := st2.conversation ++ [Msg.mk "user" stopPrompt] }
      else
        let st1 := setActiveCtx st entryId markHandled
        let st2 :=
          if ctx.userMessageIndex < st1.conversation.length then
            { st1 with conversation := st1.conversation.take ctx.userMessageIndex }
          else st1
        let st3 := { st2 with rendered := removeFirstEntry st2.rendered entryId }
        let st4 :=
          if ctx.prompt ≠ "" then { st3 with promptInput := ctx.prompt } else st3
        setActiveCtx st4 entryId markReady

/-- Model of `_on_stream_completed` (dock.py lines 3533-3554) restricted
to what it does after a handled cancellation: it returns immediately
when the context's `handled_cancel` flag is set. -/
def onStreamCompletedAfterCancel (st : DockState) (entryId : Nat) : Option DockState :=
  match st.active.find? (fun p => p.1 = entryId) with
  | none => none
  | some p => if p.2.handledCancel then some st else none

/-- Recognizer for the interrupt marker message. -/
def isStopMsg (m : Msg) : Bool :=
  m.role = "user" && m.text = stopPrompt

theorem find_active_set (l : List (Nat × ReqContext)) (i : Nat)
    (f : ReqContext → ReqContext) :
    (l.map (fun p => if p.1 = i then (p.1, f p.2) else p)).find? (fun p => p.1 = i)
      = (l.find? (fun p => p.1 = i)).map (fun p => (p.1, f p.2)) := by
  induction l with
  | nil => rfl
  | cons p rest ih =>
    simp only [List.map_cons, List.find?_cons]
    by_cases hp : p.1 = i
    · simp [hp]
    · simp [hp, ih]

theorem removeFirstEntry_no_id (l : List Entry) (i : Nat)
    (hnd : (l.map (fun en => en.displayId)).Nodup) :
    ∀ e2 ∈ removeFirstEntry l i, e2.displayId ≠ i := by
  induction l with
  | nil => intro e2 h; simp [removeFirstEntry] at h
  | cons en rest ih =>
    intro e2 h2
    rw [removeFirstEntry] at h2
    simp only [List.map_cons, List.nodup_cons] at hnd
    by_cases hen : en.displayId = i
    · rw [if_pos hen] at h2
      intro hcontra
      apply hnd.1
      rw [hen, ← hcontra]
      exact List.mem_map_of_mem _ h2
    · rw [if_neg hen] at h2
      rcases List.mem_cons.mp h2 with h3 | h3
      · subst h3
        exact hen
      · exact ih hnd.2 e2 h3

/-- C2: a cancellation observed at any poll point (before iterating, or
between chunks, or right after the stream was drained) terminates the
worker Cancelled, emitting exactly the chunks received before the
cancellation and preserving the accumulated text and reasoning; and on
the dock side, cancelling while the pending entry holds nonempty
accumulated stream output persists exactly one interaction row whose
response text is exactly that accumulated text (never the empty string),
appends exactly one interrupt marker message to the conversation, and a
late `completed` delivery from the worker is then ignored. -/
theorem cancel_preserves_partial_output
    (cs : List (String × String)) (k : Nat) (bu : BufferedBeh)
    (st : DockState) (en : Entry) (ctx : ReqContext) (summaryText : String)
    (hk : k ≤ cs.length + 1)
    (hact : st.active.isEmpty = false)
    (hfind : findCancelTarget st = some (en, ctx))
    (hresp : en.responseStream = accTexts (cs.take (k - 1)))
    (hreas : en.reasoningStream = accReas (cs.take (k - 1)))
    (hout : en.responseStream ≠ "")
    (hpfind : st.active.find? (fun q => q.1 = en.displayId)
      = some (en.displayId, ctx)) :
    workerRun ⟨true, .ok (cs, none), some k, bu⟩
      = chunkSigs (cs.take (k - 1))
        ++ [Sig.completed en.responseStream en.reasoningStream
              (decide (cs.length < k)) none true, Sig.done] ∧
    (cancelActiveMllmRequest st summaryText).savedInteractions
      = st.savedInteractions
        ++ [InteractionRow.mk ctx.prompt en.responseStream ctx.chipIds
              ctx.selectedApi ctx.selectedModel ctx.chipModes
              (if en.reasoningStream ≠ "" then some en.reasoningStream else none)] ∧
    en.responseStream ≠ "" ∧
    (cancelActiveMllmRequest st summaryText).conversation
      = st.conversation
        ++ [Msg.mk "assistant" en.responseStream, Msg.mk "user" stopPrompt] ∧
    ((cancelActiveMllmRequest st summaryText).conversation.filter isStopMsg).length
      = (st.conversation.filter isStopMsg).length + 1 ∧
    onStreamCompletedAfterCancel (cancelActiveMllmRequest st summaryText) en.displayId
      = some (cancelActiveMllmRequest st summaryText) := by
  have hworker := workerRun_cancel_spec cs k bu hk
  rw [← hresp, ← hreas] at hworker
  have hcancel :
      cancelActiveMllmRequest st summaryText
        = { finalizeInteraction
              (setActiveCtx st en.displayId markHandled)
              en.displayId ctx en.responseStream en.reasoningStream summaryText
            with conversation :=
              (finalizeInteraction
                (setActiveCtx st en.displayId markHandled)
                en.displayId ctx en.responseStream en.reasoningStream summaryText).conversation
              ++ [Msg.mk "user" stopPrompt] } := by
    unfold cancelActiveMllmRequest
    rw [hact, hfind]
    simp [hout]
  refine ⟨hworker, ?_, hout, ?_, ?_, ?_⟩
  · rw [hcancel]
    by_cases hsum : summaryText = "" <;> simp [finalizeInteraction, setActiveCtx, hsum]
  · rw [hcancel]
    by_cases hsum : summaryText = "" <;>
      simp [finalizeInteraction, setActiveCtx, hsum, List.append_assoc]
  · rw [hcancel]
    by_cases hsum : summaryText = "" <;>
      simp [finalizeInteraction, setActiveCtx, hsum, List.filter_append, isStopMsg,
            stopPrompt]
  · have hactive2 : (cancelActiveMllmRequest st summaryText).active
        = st.active.map (fun q =>
            if q.1 = en.displayId then (q.1, markHandled q.2) else q) := by
      rw [hcancel]
      by_cases hsum : summaryText = "" <;> simp [finalizeInteraction, setActiveCtx, hsum]
    unfold onStreamCompletedAfterCancel
    rw [hactive2, find_active_set, hpfind]
    simp [markHandled]

/-- Concrete chunk sequence for the C2 witness. -/
def c2Chunks : List (String × String) := [("Par", ""), ("tial", "")]

/-- Concrete pending entry (after "Par" and "tial" arrived) for the C2
witness. -/
def c2Entry : Entry := ⟨1, "Partial", "", "", none, true, false⟩

/-- Concrete request context for the C2 witness. -/
def c2Ctx : ReqContext := ⟨"What is this?", "OpenAI", "gpt-4o", [5], ["screen"], 0, false, false⟩

/-- Concrete dock state for the C2 witness. -/
def c2State : DockState :=
  ⟨[Msg.mk "user" "What is this?"], [c2Entry], [(1, c2Ctx)], [], [], "", ""⟩

/-- Witness for C2 at the spec's concrete scenario: chunks "Par" and
"tial" arrived, then the request is cancelled. -/
theorem cancel_preserves_partial_output_witness :
    ((3 : Nat) ≤ c2Chunks.length + 1 ∧
     c2State.active.isEmpty = false ∧
     findCancelTarget c2State = some (c2Entry, c2Ctx) ∧
     c2Entry.responseStream = accTexts (c2Chunks.take (3 - 1)) ∧
     c2Entry.reasoningStream = accReas (c2Chunks.take (3 - 1)) ∧
     c2Entry.responseStream ≠ "" ∧
     c2State.active.find? (fun q => q.1 = c2Entry.displayId)
       = some (c2Entry.displayId, c2Ctx)) ∧
    (workerRun ⟨true, .ok (c2Chunks, none), some 3, .ok "" ""⟩
       = chunkSigs (c2Chunks.take (3 - 1))
         ++ [Sig.completed c2Entry.responseStream c2Entry.reasoningStream
               (decide (c2Chunks.length < 3)) none true, Sig.done] ∧
     (cancelActiveMllmRequest c2State "sum").savedInteractions
       = c2State.savedInteractions
         ++ [InteractionRow.mk c2Ctx.prompt c2Entry.responseStream c2Ctx.chipIds
               c2Ctx.selectedApi c2Ctx.selectedModel c2Ctx.chipModes
               (if c2Entry.reasoningStream ≠ "" then some c2Entry.reasoningStream
                else none)] ∧
     c2Entry.responseStream ≠ "" ∧
     (cancelActiveMllmRequest c2State "sum").conversation
       = c2State.conversation
         ++ [Msg.mk "assistant" c2Entry.responseStream, Msg.mk "user" stopPrompt] ∧
     ((cancelActiveMllmRequest c2State "sum").conversation.filter isStopMsg).length
       = (c2State.conversation.filter isStopMsg).length + 1 ∧
     onStreamCompletedAfterCancel (cancelActiveMllmRequest c2State "sum")
         c2Entry.displayId
       = some (cancelActiveMllmRequest c2State "sum")) :=
  ⟨⟨by decide, by decide, by decide, by decide, by decide, by decide, by decide⟩,
   cancel_preserves_partial_output c2Chunks 3 (.ok "" "") c2State c2Entry c2Ctx "sum"
     (by decide) (by decide) (by decide) (by decide) (by decide) (by decide) (by decide)⟩

/-- C6: cancelling a request whose pending entry accumulated no output
saves no interaction row, leaves the chat's interaction sequence
unchanged, rolls the conversation back to before the aborted turn,
discards the transient entry, and restores the original prompt text
verbatim into the input field. -/
theorem cancel_no_output_rollback
    (st : DockState) (en : Entry) (ctx : ReqContext) (summaryText : String)
    (hact : st.active.isEmpty = false)
    (hfind : findCancelTarget st = some (en, ctx))
    (hresp : en.responseStream = "")
    (hreas : en.reasoningStream = "")
    (hprompt : ctx.prompt ≠ "")
    (hidx : ctx.userMessageIndex < st.conversation.length)
    (hnd : (st.rendered.map (fun e2 => e2.displayId)).Nodup) :
    (cancelActiveMllmRequest st summaryText).savedInteractions
      = st.savedInteractions ∧
    (cancelActiveMllmRequest st summaryText).chatInteractions
      = st.chatInteractions ∧
    (cancelActiveMllmRequest st summaryText).conversation
      = st.conversation.take ctx.userMessageIndex ∧
    (∀ e2 ∈ (cancelActiveMllmRequest st summaryText).rendered,
        e2.displayId ≠ en.displayId) ∧
    (cancelActiveMllmRequest st summaryText).promptInput = ctx.prompt := by
  have hcancel : cancelActiveMllmRequest st summaryText
      = setActiveCtx
          { setActiveCtx st en.displayId markHandled with
            conversation := st.conversation.take ctx.userMessageIndex,
            rendered := removeFirstEntry st.rendered en.displayId,
            promptInput := ctx.prompt }
          en.displayId markReady := by
    unfold cancelActiveMllmRequest
    rw [hact, hfind]
    simp [hresp, hreas, hidx, hprompt, setActiveCtx]
  refine ⟨?_, ?_, ?_, ?_, ?_⟩ <;> rw [hcancel]
  · simp [setActiveCtx]
  · simp [setActiveCtx]
  · simp [setActiveCtx]
  · intro e2 h2
    have h3 : e2 ∈ removeFirstEntry st.rendered en.displayId := by
      simpa [setActiveCtx] using h2
    exact removeFirstEntry_no_id st.rendered en.displayId hnd e2 h3
  · simp [setActiveCtx]

/-- Concrete entry for the C6 witness (no accumulated output). -/
def c6Entry : Entry := ⟨2, "", "", "", none, true, false⟩

/-- Concrete context for the C6 witness. -/
def c6Ctx : ReqContext := ⟨"Describe the area", "OpenAI", "gpt-4o", [], [], 1, false, false⟩

/-- Concrete dock state for the C6 witness. -/
def c6State : DockState :=
  ⟨[Msg.mk "user" "earlier", Msg.mk "user" "Describe the area"],
   [c6Entry], [(2, c6Ctx)], [], [], "", ""⟩

/-- Witness for C6 at a concrete no-output cancellation. -/
theorem cancel_no_output_rollback_witness :
    (c6State.active.isEmpty = false ∧
     findCancelTarget c6State = some (c6Entry, c6Ctx) ∧
     c6Entry.responseStream = "" ∧
     c6Entry.reasoningStream = "" ∧
     c6Ctx.prompt ≠ "" ∧
     c6Ctx.userMessageIndex < c6State.conversation.length ∧
     (c6State.rendered.map (fun e2 => e2.displayId)).Nodup) ∧
    ((cancelActiveMllmRequest c6State "").savedInteractions
       = c6State.savedInteractions ∧
     (cancelActiveMllmRequest c6State "").chatInteractions
       = c6State.chatInteractions ∧
     (cancelActiveMllmRequest c6State "").conversation
       = c6State.conversation.take c6Ctx.userMessageIndex ∧
     (∀ e2 ∈ (cancelActiveMllmRequest c6State "").rendered,
         e2.displayId ≠ c6Entry.displayId) ∧
     (cancelActiveMllmRequest c6State "").promptInput = c6Ctx.prompt) :=
  ⟨⟨by decide, by decide, by decide, by decide, by decide, by decide, by decide⟩,
   cancel_no_output_rollback c6State c6Entry c6Ctx ""
     (by decide) (by decide) (by decide) (by decide) (by decide) (by decide) (by decide)⟩

/-- C10 counterexample input: a response whose first choice carries a
message that is a plain string rather than a dict. -/
def c10Response : PyVal :=
  .pydict [("choices", .pylist [.pydict [("message", .pystr "hi")]])]

/-- C10 (counterexample): `parse_completion_response` raises
(`AttributeError` on `message.get`) when the first choice's message is a
non-dict value, refuting the claim that the parsers never raise on any
input. -/
theorem parse_completion_response_raises :
    parse_completion_response c10Response = .error () := by
  rfl

theorem except_bind_ok {a b c : Type} (x : a) (f : a → Except c b) :
    (Except.ok x : Except c a) >>= f = f x := rfl

theorem except_pure_eq {a c : Type} (x : a) : (pure x : Except c a) = .ok x := rfl

/-- C10 (amended): for the malformed shapes the claim enumerates — falsy
inputs (including None), inputs without a choices field (dict or
object), an empty choices list, and a first choice without a delta
(stream) or message (completion) — both parsers return `("", "")`
without raising; but the parsers are not exception-free on arbitrary
values (see the counterexample, where a non-dict message raises). -/
theorem parsers_default_on_malformed
    (v : PyVal) (fs attrs cfs mfs : List (String × PyVal)) (rest : List PyVal)
    (hv : v.truthy = false)
    (hfs : lookupField fs "choices" = none)
    (hattrs : lookupField attrs "choices" = none)
    (hcfs : lookupField cfs "delta" = none)
    (hmfs : lookupField mfs "message" = none) :
    (parse_stream_chunk v = .ok ("", "") ∧
     parse_completion_response v = .ok ("", "")) ∧
    (parse_stream_chunk (.pydict fs) = .ok ("", "") ∧
     parse_completion_response (.pydict fs) = .ok ("", "")) ∧
    (parse_stream_chunk (.pyobj attrs) = .ok ("", "") ∧
     parse_completion_response (.pyobj attrs) = .ok ("", "")) ∧
    (parse_stream_chunk (.pydict [("choices", .pylist [])]) = .ok ("", "") ∧
     parse_completion_response (.pydict [("choices", .pylist [])]) = .ok ("", "")) ∧
    parse_stream_chunk (.pydict [("choices", .pylist (.pydict cfs :: rest))])
      = .ok ("", "") ∧
    parse_completion_response (.pydict [("choices", .pylist (.pydict mfs :: rest))])
      = .ok ("", "") := by
  refine ⟨⟨?_, ?_⟩, ⟨?_, ?_⟩, ⟨?_, ?_⟩, ⟨by rfl, by rfl⟩, ?_, ?_⟩
  · simp [parse_stream_chunk, hv, except_pure_eq]
  · simp [parse_completion_response, hv, except_pure_eq]
  · by_cases hfe : fs.isEmpty <;>
      simp [parse_stream_chunk, PyVal.truthy, PyVal.getattrD, PyVal.pyGet,
            PyVal.isDict, PyVal.isNone, hfs, hfe, except_bind_ok, except_pure_eq]
  · by_cases hfe : fs.isEmpty <;>
      simp [parse_completion_response, PyVal.truthy, PyVal.getattrD, PyVal.pyGet,
            PyVal.isDict, PyVal.isNone, hfs, hfe, except_bind_ok, except_pure_eq]
  · simp [parse_stream_chunk, PyVal.truthy, PyVal.getattrD, PyVal.pyGet,
          PyVal.isDict, PyVal.isNone, hattrs, except_bind_ok, except_pure_eq]
  · simp [parse_completion_response, PyVal.truthy, PyVal.getattrD, PyVal.pyGet,
          PyVal.isDict, PyVal.isNone, hattrs, except_bind_ok, except_pure_eq]
  · simp [parse_stream_chunk, PyVal.truthy, PyVal.getattrD, PyVal.pyGet,
          PyVal.isDict, PyVal.isNone, PyVal.pyIndexZero, lookupField, hcfs,
          except_bind_ok, except_pure_eq]
  · simp [parse_completion_response, PyVal.truthy, PyVal.getattrD, PyVal.pyGet,
          PyVal.isDict, PyVal.isNone, PyVal.pyIndexZero, lookupField, hmfs,
          except_bind_ok, except_pure_eq]

/-- Witness for the amended C10 theorem at concrete malformed inputs. -/
theorem parsers_default_on_malformed_witness :
    (PyVal.truthy .pynone = false ∧
     lookupField ([("x", .pyint 1)]) "choices" = none ∧
     lookupField ([] : List (String × PyVal)) "choices" = none ∧
     lookupField ([("finish_reason", .pystr "stop")]) "delta" = none ∧
     lookupField ([("index", .pyint 0)]) "message" = none) ∧
    ((parse_stream_chunk .pynone = .ok ("", "") ∧
      parse_completion_response .pynone = .ok ("", "")) ∧
     (parse_stream_chunk (.pydict [("x", .pyint 1)]) = .ok ("", "") ∧
      parse_completion_response (.pydict [("x", .pyint 1)]) = .ok ("", "")) ∧
     (parse_stream_chunk (.pyobj []) = .ok ("", "") ∧
      parse_completion_response (.pyobj []) = .ok ("", "")) ∧
     (parse_stream_chunk (.pydict [("choices", .pylist [])]) = .ok ("", "") ∧
      parse_completion_response (.pydict [("choices", .pylist [])]) = .ok ("", "")) ∧
     parse_stream_chunk
         (.pydict [("choices", .pylist (.pydict [("finish_reason", .pystr "stop")] :: []))])
       = .ok ("", "") ∧
     parse_completion_response
         (.pydict [("choices", .pylist (.pydict [("index", .pyint 0)] :: []))])
       = .ok ("", "")) :=
  ⟨⟨rfl, rfl, rfl, rfl, rfl⟩,
   parsers_default_on_malformed .pynone [("x", .pyint 1)] []
     [("finish_reason", .pystr "stop")] [("index", .pyint 0)] []
     rfl rfl rfl rfl rfl⟩

/-! ## Provider registry: reasoning-support resolution and summary-model
selection (dock.py lines 2664-2689 and 2894-2941)

`supported_api_clients` (the merged template+override table),
`service_configurations` (the user overlay, of which only
`reasoning_overrides` is read here), `added_models` and the key order of
`available_api_clients` are modelled as association lists.  The litellm
capability probe `litellm.supports_reasoning(model=...)` is abstracted as
a `detect` function that may raise, and `build_base_completion_kwargs`
as a `kwargsFor` function of the provider name (the code builds the
kwargs from that provider's config entry alone). -/

/-- Generic association-list lookup (dict `.get`). -/
def alistLookup {α : Type} : List (String × α) → String → Option α
  | [], _ => none
  | (k, v) :: rest, key => if k = key then some v else alistLookup rest key

/-- The slice of a `service_configurations` entry read by the reasoning
resolution: its `reasoning_overrides` dict, when present and a dict. -/
structure ServiceConfig where
  reasoningOverrides : Option (List (String × String))
  deriving DecidableEq

/-- The slice of a `supported_api_clients` entry used here: its models
list and its `reasoning_overrides`. -/
structure ApiEntry where
  models : List String
  reasoningOverrides : Option (List (String × String))
  deriving DecidableEq

/-- The registry state read by `supports_reasoning_for_model` and
`select_summary_model`. -/
structure Registry where
  supported : List (String × ApiEntry)
  serviceConfigurations : List (String × ServiceConfig)
  addedModels : List (String × List String)
  available : List String
  deriving DecidableEq

/-- The override resolution inside `supports_reasoning_for_model`
(dock.py lines 2668-2679): the user configuration's override wins; the
template's override is consulted only when the former is absent. -/
def overrideFor (reg : Registry) (apiName modelName : String) : Option String :=
  if apiName ≠ "" then
    let fromConfig :=
      match alistLookup reg.serviceConfigurations apiName with
      | some cfg =>
        match cfg.reasoningOverrides with
        | some ov => alistLookup ov modelName
        | none => none
      | none => none
    match fromConfig with
    | some o => some o
    | none =>
      match alistLookup reg.supported apiName with
      | some entry =>
        match entry.reasoningOverrides with
        | some ov => alistLookup ov modelName
        | none => none
      | none => none
  else none

/-- Model of `supports_reasoning_for_model` (dock.py lines 2664-2689). -/
def supports_reasoning_for_model (reg : Registry)
    (detect : String → Except Unit Bool) (apiName modelName : String) : Bool :=
  if modelName = "" then false
  else
    let override := overrideFor reg apiName modelName
    if override = some "force_on" then true
    else if override = some "force_off" then false
    else
      match detect modelName with
      | .ok b => b
      | .error _ => false

/-- Model of `_deduplicate_preserve_order` (dock.py lines 2655-2662). -/
def dedupGo : List String → List String → List String
  | [], _ => []
  | x :: rest, seen =>
    if x ∈ seen then dedupGo rest seen else x :: dedupGo rest (x :: seen)

/-- Deduplicate preserving first occurrences. -/
def dedupPreserveOrder (l : List String) : List String :=
  dedupGo l []

/-- Model of `_models_for_api` (dock.py lines 2894-2897). -/
def modelsForApi (reg : Registry) (apiName : String) : List String :=
  let base :=
    match alistLookup reg.supported apiName with
    | some entry => entry.models
    | none => []
  let added :=
    match alistLookup reg.addedModels apiName with
    | some l => l
    | none => []
  dedupPreserveOrder (base ++ added)

/-- The step-3 loop of `select_summary_model` (dock.py lines 2922-2928):
first non-reasoning model of any other available provider, in
availability order. -/
def searchOtherProviders (reg : Registry) (detect : String → Except Unit Bool)
    (preferredApi : String) : List String → Option (String × String)
  | [] => none
  | api :: rest =>
    if api = preferredApi then searchOtherProviders reg detect preferredApi rest
    else
      match (modelsForApi reg api).find?
          (fun c => !(supports_reasoning_for_model reg detect api c)) with
      | some c => some (api, c)
      | none => searchOtherProviders reg detect preferredApi rest

/-- Model of `select_summary_model` (dock.py lines 2899-2941).  The
Python method returns from inside its branches; the cascade below is the
same control flow expressed as an expression. -/
def selectSummaryModel (reg : Registry) (detect : String → Except Unit Bool)
    (kwargsFor : String → List (String × String)) (preferredApi preferredModel : String) :
    String × String × List (String × String) × Bool :=
  if reg.available.isEmpty then
    (preferredApi, preferredModel, kwargsFor preferredApi,
     supports_reasoning_for_model reg detect preferredApi preferredModel)
  else
    let fromPreferred : Option (String × String) :=
      if reg.available.contains preferredApi then
        if supports_reasoning_for_model reg detect preferredApi preferredModel = false then
          some (preferredApi, preferredModel)
        else
          match (modelsForApi reg preferredApi).find?
              (fun c => !(supports_reasoning_for_model reg detect preferredApi c)) with
          | some c => some (preferredApi, c)
          | none => none
      else none
    match fromPreferred with
    | some (api, m) => (api, m, kwargsFor api, false)
    | none =>
      match searchOtherProviders reg detect preferredApi reg.available with
      | some (api, c) => (api, c, kwargsFor api, false)
      | none =>
        let fallbackApi :=
          if reg.available.contains preferredApi then preferredApi
          else reg.available.headD ""
        let fallbackModels := modelsForApi reg fallbackApi
        let fallbackModel :=
          if fallbackApi = preferredApi && preferredModel ≠ "" then preferredModel
          else if !fallbackModels.isEmpty then fallbackModels.headD ""
          else preferredModel
        (fallbackApi, fallbackModel, kwargsFor fallbackApi,
         supports_reasoning_for_model reg detect fallbackApi fallbackModel)

/-- C8 counterexample registry: an override table forcing reasoning on
for the empty model name. -/
def c8Reg : Registry :=
  ⟨[("api", ⟨["m"], none⟩)], [("api", ⟨some [("", "force_on")]⟩)], [], ["api"]⟩

/-- C8 (counterexample): the `if not model_name: return False` guard
precedes the override table, so a `force_on` override for the empty
model name yields false, not true. -/
theorem reasoning_force_on_empty_model_ignored :
    overrideFor c8Reg "api" "" = some "force_on" ∧
    supports_reasoning_for_model c8Reg (fun _ => .ok true) "api" "" = false :=
  ⟨rfl, rfl⟩

/-- C8 (amended): for every provider name and nonempty model name the
override table takes precedence — `force_on` yields true, `force_off`
yields false — and with no (applicable) override the result is the
capability-detection call on the model name, any detection failure
resolving to false; an empty model name short-circuits to false before
the override table is consulted. -/
theorem reasoning_support_resolution
    (reg : Registry) (detect : String → Except Unit Bool) (api model : String)
    (hm : model ≠ "") :
    (overrideFor reg api model = some "force_on" →
      supports_reasoning_for_model reg detect api model = true) ∧
    (overrideFor reg api model = some "force_off" →
      supports_reasoning_for_model reg detect api model = false) ∧
    (overrideFor reg api model ≠ some "force_on" →
     overrideFor reg api model ≠ some "force_off" →
      supports_reasoning_for_model reg detect api model
        = match detect model with
          | .ok b => b
          | .error _ => false) ∧
    supports_reasoning_for_model reg detect api "" = false := by
  refine ⟨?_, ?_, ?_, rfl⟩
  · intro h
    simp [supports_reasoning_for_model, hm, h]
  · intro h
    simp [supports_reasoning_for_model, hm, h]
  · intro h1 h2
    simp [supports_reasoning_for_model, hm, h1, h2]

/-- Registry for the C8 witness: one forced-on, one forced-off and one
unconstrained model. -/
def c8wReg : Registry :=
  ⟨[("api", ⟨["mon", "moff", "mfree"],
     some [("mon", "force_on"), ("moff", "force_off")]⟩)], [], [], ["api"]⟩

/-- Witness for the amended C8 theorem at a concrete forced-on model. -/
theorem reasoning_support_resolution_witness :
    ("mon" : String) ≠ "" ∧
    ((overrideFor c8wReg "api" "mon" = some "force_on" →
      supports_reasoning_for_model c8wReg (fun _ => .error ()) "api" "mon" = true) ∧
     (overrideFor c8wReg "api" "mon" = some "force_off" →
      supports_reasoning_for_model c8wReg (fun _ => .error ()) "api" "mon" = false) ∧
     (overrideFor c8wReg "api" "mon" ≠ some "force_on" →
      overrideFor c8wReg "api" "mon" ≠ some "force_off" →
      supports_reasoning_for_model c8wReg (fun _ => .error ()) "api" "mon"
        = match (fun _ => (.error () : Except Unit Bool)) "mon" with
          | .ok b => b
          | .error _ => false) ∧
     supports_reasoning_for_model c8wReg (fun _ => .error ()) "api" "" = false) :=
  ⟨by decide, reasoning_support_resolution c8wReg (fun _ => .error ()) "api" "mon" (by decide)⟩

/-- C7 counterexample configuration: the preferred provider "A" is not
available (no credentials) but has a non-reasoning model "a2"; provider
"B" is available with non-reasoning model "b1". -/
def c7Reg : Registry :=
  ⟨[("A", ⟨["a1", "a2"], some [("a1", "force_on"), ("a2", "force_off")]⟩),
    ("B", ⟨["b1"], some [("b1", "force_off")]⟩)],
   [], [], ["B"]⟩

/-- Detection probe for the C7 counterexample (never consulted for the
overridden models; failing closed elsewhere). -/
def c7Detect : String → Except Unit Bool := fun _ => .error ()

/-- Kwargs builder for the C7 examples. -/
def c7Kwargs : String → List (String × String) := fun a => [("api", a)]

/-- C7 (counterexample): with the preferred provider unavailable, the
code skips the preferred provider's own models entirely — although "a2"
is a non-reasoning model of the preferred provider "A" (step 2 of the
claimed policy), the selection returns provider "B"'s model "b1". -/
theorem select_summary_model_skips_unavailable_preferred :
    supports_reasoning_for_model c7Reg c7Detect "A" "a2" = false ∧
    supports_reasoning_for_model c7Reg c7Detect "A" "a1" = true ∧
    selectSummaryModel c7Reg c7Detect c7Kwargs "A" "a1"
      = ("B", "b1", c7Kwargs "B", false) ∧
    ("B" : String) ≠ "A" :=
  ⟨rfl, rfl, rfl, by decide⟩

theorem contains_ne_nil {l : List String} {x : String}
    (h : l.contains x = true) : l.isEmpty = false := by
  cases l with
  | nil => simp [List.contains] at h
  | cons a rest => rfl

theorem sel_empty_case (reg : Registry) (detect : String → Except Unit Bool)
    (kwargsFor : String → List (String × String)) (prefApi prefModel : String)
    (h : reg.available.isEmpty = true) :
    selectSummaryModel reg detect kwargsFor prefApi prefModel
      = (prefApi, prefModel, kwargsFor prefApi,
         supports_reasoning_for_model reg detect prefApi prefModel) := by
  simp [selectSummaryModel, h]

theorem sel_step_one (reg : Registry) (detect : String → Except Unit Bool)
    (kwargsFor : String → List (String × String)) (prefApi prefModel : String)
    (hc : reg.available.contains prefApi = true)
    (hs : supports_reasoning_for_model reg detect prefApi prefModel = false) :
    selectSummaryModel reg detect kwargsFor prefApi prefModel
      = (prefApi, prefModel, kwargsFor prefApi, false) := by
  have hmem : prefApi ∈ reg.available := by simpa using hc
  simp [selectSummaryModel, contains_ne_nil hc, hmem, hs]

theorem sel_step_two (reg : Registry) (detect : String → Except Unit Bool)
    (kwargsFor : String → List (String × String)) (prefApi prefModel c : String)
    (hc : reg.available.contains prefApi = true)
    (hs : supports_reasoning_for_model reg detect prefApi prefModel = true)
    (hf : (modelsForApi reg prefApi).find?
        (fun m => !(supports_reasoning_for_model reg detect prefApi m)) = some c) :
    selectSummaryModel reg detect kwargsFor prefApi prefModel
      = (prefApi, c, kwargsFor prefApi, false) := by
  have hmem : prefApi ∈ reg.available := by simpa using hc
  simp [selectSummaryModel, contains_ne_nil hc, hmem, hs, hf]

theorem sel_step_three_unavailable (reg : Registry)
    (detect : String → Except Unit Bool)
    (kwargsFor : String → List (String × String)) (prefApi prefModel api c : String)
    (hne : reg.available.isEmpty = false)
    (hc : reg.available.contains prefApi = false)
    (hsearch : searchOtherProviders reg detect prefApi reg.available = some (api, c)) :
    selectSummaryModel reg detect kwargsFor prefApi prefModel
      = (api, c, kwargsFor api, false) := by
  have hmem : prefApi ∉ reg.available := by simpa using hc
  simp [selectSummaryModel, hne, hmem, hsearch]

theorem sel_step_three_exhausted (reg : Registry)
    (detect : String → Except Unit Bool)
    (kwargsFor : String → List (String × String)) (prefApi prefModel api c : String)
    (hc : reg.available.contains prefApi = true)
    (hs : supports_reasoning_for_model reg detect prefApi prefModel = true)
    (hf : (modelsForApi reg prefApi).find?
        (fun m => !(supports_reasoning_for_model reg detect prefApi m)) = none)
    (hsearch : searchOtherProviders reg detect prefApi reg.available = some (api, c)) :
    selectSummaryModel reg detect kwargsFor prefApi prefModel
      = (api, c, kwargsFor api, false) := by
  have hmem : prefApi ∈ reg.available := by simpa using hc
  simp [selectSummaryModel, contains_ne_nil hc, hmem, hs, hf, hsearch]

theorem sel_step_four_preferred (reg : Registry)
    (detect : String → Except Unit Bool)
    (kwargsFor : String → List (String × String)) (prefApi prefModel : String)
    (hc : reg.available.contains prefApi = true)
    (hs : supports_reasoning_for_model reg detect prefApi prefModel = true)
    (hf : (modelsForApi reg prefApi).find?
        (fun m => !(supports_reasoning_for_model reg detect prefApi m)) = none)
    (hsearch : searchOtherProviders reg detect prefApi reg.available = none)
    (hm : prefModel ≠ "") :
    selectSummaryModel reg detect kwargsFor prefApi prefModel
      = (prefApi, prefModel, kwargsFor prefApi, true) := by
  have hmem : prefApi ∈ reg.available := by simpa using hc
  simp [selectSummaryModel, contains_ne_nil hc, hmem, hs, hf, hsearch, hm]

/-- C7 (amended): `select_summary_model` follows the actual policy in
order: (0) with no available provider at all, the preferred pair is
returned with the needs-reasoning flag computed for it; (1) if the
preferred provider is **available** and the preferred model does not
require reasoning, it is returned unchanged; (2) if the preferred
provider is available but the preferred model requires reasoning, the
first non-reasoning model of the preferred provider is returned; (3) the
preferred provider's models are skipped when it is unavailable, and the
first non-reasoning model of another available provider (in order) is
returned — both when the preferred provider is unavailable and when its
models are exhausted; (4) otherwise the preferred provider (when
available) keeps the preferred model with the needs-reasoning flag true.
In particular, when the preferred provider is available, its preferred
model requires reasoning and a non-reasoning model of the same provider
exists, that model (never the reasoning one) is selected. -/
theorem select_summary_model_policy
    (reg : Registry) (detect : String → Except Unit Bool)
    (kwargsFor : String → List (String × String)) (prefApi prefModel : String) :
    (reg.available.isEmpty = true →
      selectSummaryModel reg detect kwargsFor prefApi prefModel
        = (prefApi, prefModel, kwargsFor prefApi,
           supports_reasoning_for_model reg detect prefApi prefModel)) ∧
    (reg.available.contains prefApi = true →
     supports_reasoning_for_model reg detect prefApi prefModel = false →
      selectSummaryModel reg detect kwargsFor prefApi prefModel
        = (prefApi, prefModel, kwargsFor prefApi, false)) ∧
    (∀ c, reg.available.contains prefApi = true →
     supports_reasoning_for_model reg detect prefApi prefModel = true →
     (modelsForApi reg prefApi).find?
         (fun m => !(supports_reasoning_for_model reg detect prefApi m)) = some c →
      selectSummaryModel reg detect kwargsFor prefApi prefModel
        = (prefApi, c, kwargsFor prefApi, false)) ∧
    (∀ api c, reg.available.isEmpty = false →
     reg.available.contains prefApi = false →
     searchOtherProviders reg detect prefApi reg.available = some (api, c) →
      selectSummaryModel reg detect kwargsFor prefApi prefModel
        = (api, c, kwargsFor api, false)) ∧
    (∀ api c, reg.available.contains prefApi = true →
     supports_reasoning_for_model reg detect prefApi prefModel = true →
     (modelsForApi reg prefApi).find?
         (fun m => !(supports_reasoning_for_model reg detect prefApi m)) = none →
     searchOtherProviders reg detect prefApi reg.available = some (api, c) →
      selectSummaryModel reg detect kwargsFor prefApi prefModel
        = (api, c, kwargsFor api, false)) ∧
    (reg.available.contains prefApi = true →
     supports_reasoning_for_model reg detect prefApi prefModel = true →
     (modelsForApi reg prefApi).find?
         (fun m => !(supports_reasoning_for_model reg detect prefApi m)) = none →
     searchOtherProviders reg detect prefApi reg.available = none →
     prefModel ≠ "" →
      selectSummaryModel reg detect kwargsFor prefApi prefModel
        = (prefApi, prefModel, kwargsFor prefApi, true)) ∧
    (reg.available.contains prefApi = true →
     supports_reasoning_for_model reg detect prefApi prefModel = true →
     (∃ m ∈ modelsForApi reg prefApi,
        supports_reasoning_for_model reg detect prefApi m = false) →
      (selectSummaryModel reg detect kwargsFor prefApi prefModel).1 = prefApi ∧
      supports_reasoning_for_model reg detect prefApi
        (selectSummaryModel reg detect kwargsFor prefApi prefModel).2.1 = false ∧
      (selectSummaryModel reg detect kwargsFor prefApi prefModel).2.1 ≠ prefModel) := by
  refine ⟨sel_empty_case reg detect kwargsFor prefApi prefModel,
          sel_step_one reg detect kwargsFor prefApi prefModel,
          fun c => sel_step_two reg detect kwargsFor prefApi prefModel c,
          fun api c => sel_step_three_unavailable reg detect kwargsFor
            prefApi prefModel api c,
          fun api c => sel_step_three_exhausted reg detect kwargsFor
            prefApi prefModel api c,
          sel_step_four_preferred reg detect kwargsFor prefApi prefModel,
          ?_⟩
  intro hc hs hex
  have hsome : ((modelsForApi reg prefApi).find?
      (fun m => !(supports_reasoning_for_model reg detect prefApi m))).isSome := by
    rw [List.find?_isSome]
    obtain ⟨m, hmem, hm⟩ := hex
    exact ⟨m, hmem, by simp [hm]⟩
  obtain ⟨c, hcfind⟩ := Option.isSome_iff_exists.mp hsome
  have hpc : supports_reasoning_for_model reg detect prefApi c = false := by
    have := List.find?_some hcfind
    simpa using this
  rw [sel_step_two reg detect kwargsFor prefApi prefModel c hc hs hcfind]
  refine ⟨rfl, by simpa using hpc, ?_⟩
  intro heq
  simp only [] at heq
  rw [heq] at hpc
  rw [hs] at hpc
  simp at hpc

/-- Witness registry exercising policy step 1 (preferred model needs no
reasoning). -/
def c7RegW1 : Registry :=
  ⟨[("P", ⟨["pm"], some [("pm", "force_off")]⟩)], [], [], ["P"]⟩

/-- Witness registry exercising policy step 2 (preferred model requires
reasoning, sibling "pn" does not). -/
def c7RegW2 : Registry :=
  ⟨[("P", ⟨["pr", "pn"], some [("pr", "force_on"), ("pn", "force_off")]⟩)],
   [], [], ["P"]⟩

/-- Witness registry exercising policy step 4 (everything requires
reasoning). -/
def c7RegW4 : Registry :=
  ⟨[("P", ⟨["pr"], some [("pr", "force_on")]⟩)], [], [], ["P"]⟩

/-- Witness for the amended C7 theorem: each policy step at a concrete
registry, including the non-reasoning-sibling guarantee. -/
theorem select_summary_model_policy_witness :
    selectSummaryModel c7RegW1 c7Detect c7Kwargs "P" "pm"
      = ("P", "pm", c7Kwargs "P", false) ∧
    selectSummaryModel c7RegW2 c7Detect c7Kwargs "P" "pr"
      = ("P", "pn", c7Kwargs "P", false) ∧
    selectSummaryModel c7Reg c7Detect c7Kwargs "A" "a1"
      = ("B", "b1", c7Kwargs "B", false) ∧
    selectSummaryModel c7RegW4 c7Detect c7Kwargs "P" "pr"
      = ("P", "pr", c7Kwargs "P", true) ∧
    supports_reasoning_for_model c7RegW2 c7Detect "P"
      (selectSummaryModel c7RegW2 c7Detect c7Kwargs "P" "pr").2.1 = false ∧
    (selectSummaryModel c7RegW2 c7Detect c7Kwargs "P" "pr").2.1 ≠ "pr" :=
  ⟨(select_summary_model_policy c7RegW1 c7Detect c7Kwargs "P" "pm").2.1
     (by decide) (by decide),
   (select_summary_model_policy c7RegW2 c7Detect c7Kwargs "P" "pr").2.2.1 "pn"
     (by decide) (by decide) (by decide),
   (select_summary_model_policy c7Reg c7Detect c7Kwargs "A" "a1").2.2.2.1 "B" "b1"
     (by decide) (by decide) (by decide),
   (select_summary_model_policy c7RegW4 c7Detect c7Kwargs "P" "pr").2.2.2.2.2.1
     (by decide) (by decide) (by decide) (by decide) (by decide),
   ((select_summary_model_policy c7RegW2 c7Detect c7Kwargs "P" "pr").2.2.2.2.2.2
     (by decide) (by decide) ⟨"pn", by decide, by decide⟩).2.1,
   ((select_summary_model_policy c7RegW2 c7Detect c7Kwargs "P" "pr").2.2.2.2.2.2
     (by decide) (by decide) ⟨"pn", by decide, by decide⟩).2.2⟩

/-! ## LogsDB.delete_chat (db.py lines 193-246)

The rows read by `delete_chat` are projected to the columns it touches:
chips to `(id, image_path)` (geocoords unread), interactions to
`(id, chips_sequence)` (text columns unread), chats to
`(id, interactions_sequence)` (summary unread).  The function is a
Python generator; we embed it as a function producing the ordered trace
of its effects (`DelOp`), with the yields interleaved exactly where the
source yields (all of them precede the row deletions).  `chips_to_check`
is a Python set of ints whose iteration order is unspecified; we model
it as an insertion-ordered deduplicated list — no theorem below depends
on the order.  A failed `fetchone()[0]` (missing row) raises, modelled
by `Except`. -/

structure DBState where
  chips : List (Nat × String)
  interactions : List (Nat × List Nat)
  chats : List (Nat × List Nat)
  deriving DecidableEq

/-- `SELECT interactions_sequence FROM Chats WHERE id = ?` + fetchone. -/
def fetchChatSeq (db : DBState) (chatId : Nat) : Option (List Nat) :=
  (db.chats.find? (fun c => c.1 = chatId)).map (fun c => c.2)

/-- `SELECT chips_sequence FROM Interactions WHERE id = ?` + fetchone. -/
def fetchInteractionChips (db : DBState) (iid : Nat) : Option (List Nat) :=
  (db.interactions.find? (fun i => i.1 = iid)).map (fun i => i.2)

/-- `SELECT image_path FROM Chips WHERE id = ?` + fetchone. -/
def fetchChipPath (db : DBState) (chipId : Nat) : Option String :=
  (db.chips.find? (fun c => c.1 = chipId)).map (fun c => c.2)

/-- `chips_to_check.update(chips_sequence)`: add new ids preserving
insertion order. -/
def addChips (acc : List Nat) : List Nat → List Nat
  | [] => acc
  | x :: rest => if acc.contains x then addChips acc rest else addChips (acc ++ [x]) rest

/-- The loop collecting the chat's chip ids (db.py lines 203-207); a
missing interaction row raises. -/
def chipsToCheckGo (db : DBState) : List Nat → List Nat → Except Unit (List Nat)
  | [], acc => .ok acc
  | iid :: rest, acc =>
    match fetchInteractionChips db iid with
    | none => .error ()
    | some chips => chipsToCheckGo db rest (addChips acc chips)

/-- `SELECT interactions_sequence FROM Chats WHERE id != ?`, flattened in
chat order (db.py lines 214-217). -/
def otherChatsInteractions (db : DBState) (chatId : Nat) : List Nat :=
  ((db.chats.filter (fun c => !(c.1 = chatId))).map (fun c => c.2)).join

/-- The is_used scan with early break (db.py lines 220-226); a missing
interaction row raises only when reached before a hit. -/
def scanUsed (db : DBState) (chipId : Nat) : List Nat → Except Unit Bool
  | [] => .ok false
  | iid :: rest =>
    match fetchInteractionChips db iid with
    | none => .error ()
    | some otherChips =>
      if chipId ∈ otherChips then .ok true else scanUsed db chipId rest

/-- The per-chip loop (db.py lines 211-232): returns the yielded
`(image_path, chip_id)` pairs and `chips_to_delete`, in order. -/
def collectUnreferenced (db : DBState) (chatId : Nat) :
    List Nat → Except Unit (List (String × Nat) × List Nat)
  | [] => .ok ([], [])
  | chipId :: rest => do
    let used ← scanUsed db chipId (otherChatsInteractions db chatId)
    if used then
      collectUnreferenced db chatId rest
    else
      match fetchChipPath db chipId with
      | none => .error ()
      | some path => do
        let (ys, ds) ← collectUnreferenced db chatId rest
        return ((path, chipId) :: ys, chipId :: ds)

/-- One effect of the `delete_chat` generator. -/
inductive DelOp where
  | yieldChip (path : String) (chipId : Nat)
  | delInteraction (iid : Nat)
  | delChip (chipId : Nat)
  | delChat (chatId : Nat)
  deriving DecidableEq

/-- The ordered effect trace of `delete_chat` (db.py lines 193-246): all
yields first (produced inside the chip loop), then the interaction
deletes, the chip deletes, and the chat delete. -/
def delete_chat_ops (db : DBState) (chatId : Nat) : Except Unit (List DelOp) := do
  match fetchChatSeq db chatId with
  | none => .error ()
  | some seq => do
    let chips ← chipsToCheckGo db seq []
    let (ys, ds) ← collectUnreferenced db chatId chips
    return (ys.map (fun y => DelOp.yieldChip y.1 y.2)
            ++ seq.map DelOp.delInteraction
            ++ ds.map DelOp.delChip
            ++ [DelOp.delChat chatId])

/-- Applying one effect to the database state (`DELETE FROM ... WHERE
id = ?`; a yield does not change the database). -/
def applyDelOp (db : DBState) : DelOp → DBState
  | .yieldChip _ _ => db
  | .delInteraction iid =>
    { db with interactions := db.interactions.filter (fun i => !(i.1 = iid)) }
  | .delChip cid =>
    { db with chips := db.chips.filter (fun c => !(c.1 = cid)) }
  | .delChat cid =>
    { db with chats := db.chats.filter (fun c => !(c.1 = cid)) }

/-- Applying a trace prefix in order. -/
def applyDelOps (db : DBState) (ops : List DelOp) : DBState :=
  ops.foldl applyDelOp db

/-- The effects executed when the caller consumes exactly `n` yielded
elements and then stops: the generator runs up to (and including) the
`n`-th `yield` and is then suspended there; the statements after the
loop run only if the caller keeps iterating to exhaustion. -/
def opsConsumed : Nat → List DelOp → List DelOp
  | _, [] => []
  | n, DelOp.yieldChip p c :: rest =>
    match n with
    | 0 => []
    | 1 => [DelOp.yieldChip p c]
    | m + 2 => DelOp.yieldChip p c :: opsConsumed (m + 1) rest
  | n, op :: rest => if n = 0 then [] else op :: opsConsumed n rest

/-- The pair a `yield` op delivers to the caller (nothing for the
deletion ops). -/
def yieldOf : DelOp → Option (String × Nat)
  | DelOp.yieldChip p c => some (p, c)
  | _ => none

/-- `delete_chat` under full consumption of the generator: the yielded
pairs and the final database state. -/
def delete_chat (db : DBState) (chatId : Nat) :
    Except Unit (List (String × Nat) × DBState) := do
  let ops ← delete_chat_ops db chatId
  return (ops.filterMap yieldOf, applyDelOps db ops)

/-- The C4 failing database: chat 100 owns interaction 10, which
references chip 1; no other chat exists, so chip 1 is unreferenced. -/
def c4DB : DBState :=
  ⟨[(1, "img1.png")], [(10, [1])], [(100, [10])]⟩

/-- The effect trace of `delete_chat c4DB 100`. -/
def c4Ops : List DelOp :=
  [DelOp.yieldChip "img1.png" 1, DelOp.delInteraction 10,
   DelOp.delChip 1, DelOp.delChat 100]

/-- C4 (code bug): `delete_chat` is a true generator whose row deletions
all sit after the final yield.  A caller consuming the first yielded
`(image_path, chip_id)` pair and then stopping leaves the generator
suspended at that yield: no DELETE statement has executed, so the chat
row and its interaction rows remain — contradicting the claim that they
are still eventually deleted.  Exhausting the generator does delete
them. -/
theorem delete_chat_abort_leaves_rows :
    delete_chat_ops c4DB 100 = .ok c4Ops ∧
    opsConsumed 1 c4Ops = [DelOp.yieldChip "img1.png" 1] ∧
    applyDelOps c4DB (opsConsumed 1 c4Ops) = c4DB ∧
    (c4DB.chats.find? (fun c => c.1 = 100)).isSome = true ∧
    (c4DB.interactions.find? (fun i => i.1 = 10)).isSome = true ∧
    (applyDelOps c4DB c4Ops).chats = [] ∧
    (applyDelOps c4DB c4Ops).interactions = [] := by
  refine ⟨?_, rfl, rfl, rfl, rfl, rfl, rfl⟩
  rfl

/-- Whether any interaction in the given id list references the chip
(the Boolean shadow of the scans in `delete_chat`). -/
def refAnyB (db : DBState) (l : List Nat) (x : Nat) : Bool :=
  l.any (fun iid =>
    match fetchInteractionChips db iid with
    | some chips => chips.contains x
    | none => false)

theorem addChips_mem (new : List Nat) :
    ∀ acc x, x ∈ addChips acc new ↔ x ∈ acc ∨ x ∈ new := by
  induction new with
  | nil =>
    intro acc x
    simp [addChips]
  | cons y rest ih =>
    intro acc x
    rw [addChips]
    by_cases hy : acc.contains y
    · rw [if_pos hy]
      rw [ih]
      have hmy : y ∈ acc := by simpa using hy
      constructor
      · rintro (h | h)
        · exact Or.inl h
        · exact Or.inr (List.mem_cons_of_mem _ h)
      · rintro (h | h)
        · exact Or.inl h
        · rcases List.mem_cons.mp h with rfl | h2
          · exact Or.inl hmy
          · exact Or.inr h2
    · rw [if_neg hy]
      rw [ih]
      simp [List.mem_append, List.mem_cons]
      tauto

theorem scanUsed_ok (db : DBState) (chipId : Nat) (l : List Nat)
    (hres : ∀ iid ∈ l, (fetchInteractionChips db iid).isSome) :
    scanUsed db chipId l = .ok (refAnyB db l chipId) := by
  induction l with
  | nil => rfl
  | cons iid rest ih =>
    obtain ⟨chips, hchips⟩ :=
      Option.isSome_iff_exists.mp (hres iid (List.mem_cons_self _ _))
    rw [scanUsed, hchips]
    show (if chipId ∈ chips then Except.ok true else scanUsed db chipId rest) = _
    by_cases hx : chipId ∈ chips
    · rw [if_pos hx]
      simp [refAnyB, hchips, hx]
    · rw [if_neg hx]
      rw [ih (fun i hi => hres i (List.mem_cons_of_mem _ hi))]
      simp [refAnyB, hchips, hx]

theorem chipsToCheckGo_ok (db : DBState) (seq : List Nat)
    (hres : ∀ iid ∈ seq, (fetchInteractionChips db iid).isSome) :
    ∀ acc, ∃ res, chipsToCheckGo db seq acc = .ok res ∧
      ∀ x, x ∈ res ↔ x ∈ acc ∨ refAnyB db seq x = true := by
  induction seq with
  | nil =>
    intro acc
    exact ⟨acc, rfl, by simp [refAnyB]⟩
  | cons iid rest ih =>
    intro acc
    obtain ⟨chips, hchips⟩ :=
      Option.isSome_iff_exists.mp (hres iid (List.mem_cons_self _ _))
    obtain ⟨res, hrun, hmem⟩ :=
      ih (fun i hi => hres i (List.mem_cons_of_mem _ hi)) (addChips acc chips)
    refine ⟨res, ?_, ?_⟩
    · rw [chipsToCheckGo, hchips]
      show chipsToCheckGo db rest (addChips acc chips) = _
      exact hrun
    · intro x
      rw [hmem x, addChips_mem]
      simp [refAnyB, hchips]
      tauto

theorem collectUnreferenced_ok (db : DBState) (chatId : Nat) (l : List Nat)
    (hres : ∀ iid ∈ otherChatsInteractions db chatId,
      (fetchInteractionChips db iid).isSome)
    (hpaths : ∀ x ∈ l, refAnyB db (otherChatsInteractions db chatId) x = false →
      (fetchChipPath db x).isSome) :
    collectUnreferenced db chatId l = .ok
      ((l.filter (fun x => !(refAnyB db (otherChatsInteractions db chatId) x))).map
         (fun x => ((fetchChipPath db x).getD "", x)),
       l.filter (fun x => !(refAnyB db (otherChatsInteractions db chatId) x))) := by
  induction l with
  | nil => rfl
  | cons x rest ih =>
    rw [collectUnreferenced]
    rw [scanUsed_ok db x _ hres]
    by_cases hused : refAnyB db (otherChatsInteractions db chatId) x = true
    · simp only [hused, except_bind_ok, if_true]
      rw [ih (fun z hz => hpaths z (List.mem_cons_of_mem _ hz))]
      simp [hused]
    · have husedF : refAnyB db (otherChatsInteractions db chatId) x = false := by
        simpa using hused
      obtain ⟨p, hp⟩ := Option.isSome_iff_exists.mp
        (hpaths x (List.mem_cons_self _ _) husedF)
      simp only [husedF, except_bind_ok, Bool.false_eq_true, if_false]
      rw [hp]
      show ((collectUnreferenced db chatId rest) >>= fun r =>
          Except.ok ((p, x) :: r.1, x :: r.2)) = _
      rw [ih (fun z hz => hpaths z (List.mem_cons_of_mem _ hz))]
      rw [except_bind_ok]
      simp [husedF, hp]

theorem applyDelOps_append (db : DBState) (a b : List DelOp) :
    applyDelOps db (a ++ b) = applyDelOps (applyDelOps db a) b :=
  List.foldl_append applyDelOp db a b

theorem applyDelOps_yields (ys : List (String × Nat)) :
    ∀ db, applyDelOps db (ys.map (fun y => DelOp.yieldChip y.1 y.2)) = db := by
  induction ys with
  | nil => intro db; rfl
  | cons y rest ih =>
    intro db
    exact ih db

theorem applyDelOps_delInteractions (ids : List Nat) :
    ∀ db : DBState, applyDelOps db (ids.map DelOp.delInteraction)
      = { db with interactions :=
            db.interactions.filter (fun i => !(ids.contains i.1)) } := by
  induction ids with
  | nil =>
    intro db
    show db = _
    simp
  | cons a rest ih =>
    intro db
    show applyDelOps
      { db with interactions := db.interactions.filter (fun i => !(i.1 = a)) }
      (rest.map DelOp.delInteraction) = _
    rw [ih]
    simp only [List.filter_filter]
    congr 1
    apply List.filter_congr
    intro i _
    simp [List.contains_cons]
    rw [Bool.and_comm]

theorem applyDelOps_delChips (ids : List Nat) :
    ∀ db : DBState, applyDelOps db (ids.map DelOp.delChip)
      = { db with chips := db.chips.filter (fun c => !(ids.contains c.1)) } := by
  induction ids with
  | nil =>
    intro db
    show db = _
    simp
  | cons a rest ih =>
    intro db
    show applyDelOps
      { db with chips := db.chips.filter (fun c => !(c.1 = a)) }
      (rest.map DelOp.delChip) = _
    rw [ih]
    simp only [List.filter_filter]
    congr 1
    apply List.filter_congr
    intro c _
    simp [List.contains_cons]
    rw [Bool.and_comm]

theorem find?_filter_keep {α : Type} (l : List α) (p q : α → Bool)
    (h : ∀ x, q x = true → p x = true) :
    (l.filter p).find? q = l.find? q := by
  induction l with
  | nil => rfl
  | cons x rest ih =>
    by_cases hq : q x = true
    · rw [List.filter_cons, if_pos (h x hq)]
      rw [List.find?_cons, List.find?_cons, hq]
    · have hqf : q x = false := by simpa using hq
      by_cases hp : p x = true
      · rw [List.filter_cons, if_pos hp]
        rw [List.find?_cons, List.find?_cons, hqf]
        exact ih
      · rw [List.filter_cons, if_neg hp]
        rw [List.find?_cons, hqf]
        exact ih

theorem filterMap_yieldOf_yields (ys : List (String × Nat)) :
    (ys.map (fun y => DelOp.yieldChip y.1 y.2)).filterMap yieldOf = ys := by
  induction ys with
  | nil => rfl
  | cons y rest ih => simp [List.filterMap_cons, yieldOf, ih]

theorem filterMap_yieldOf_delInteractions (ids : List Nat) :
    (ids.map DelOp.delInteraction).filterMap yieldOf = [] := by
  induction ids with
  | nil => rfl
  | cons a rest ih => simp [List.filterMap_cons, yieldOf, ih]

theorem filterMap_yieldOf_delChips (ids : List Nat) :
    (ids.map DelOp.delChip).filterMap yieldOf = [] := by
  induction ids with
  | nil => rfl
  | cons a rest ih => simp [List.filterMap_cons, yieldOf, ih]

theorem delete_chat_ok (db : DBState) (chatId : Nat) (seq : List Nat)
    (hchat : fetchChatSeq db chatId = some seq)
    (hresSeq : ∀ iid ∈ seq, (fetchInteractionChips db iid).isSome)
    (hresOthers : ∀ iid ∈ otherChatsInteractions db chatId,
      (fetchInteractionChips db iid).isSome)
    (hpaths : ∀ x, refAnyB db seq x = true →
      refAnyB db (otherChatsInteractions db chatId) x = false →
      (fetchChipPath db x).isSome) :
    ∃ checkList : List Nat,
      (∀ x, x ∈ checkList ↔ refAnyB db seq x = true) ∧
      delete_chat db chatId = .ok
        ((checkList.filter
            (fun x => !(refAnyB db (otherChatsInteractions db chatId) x))).map
           (fun x => ((fetchChipPath db x).getD "", x)),
         ⟨db.chips.filter (fun c =>
            !((checkList.filter
                (fun x => !(refAnyB db (otherChatsInteractions db chatId) x))).contains c.1)),
          db.interactions.filter (fun i => !(seq.contains i.1)),
          db.chats.filter (fun c => !(c.1 = chatId))⟩) := by
  obtain ⟨checkList, hrun, hmem⟩ := chipsToCheckGo_ok db seq hresSeq []
  have hmem2 : ∀ x, x ∈ checkList ↔ refAnyB db seq x = true := by
    intro x
    rw [hmem x]
    simp
  have hpaths2 : ∀ x ∈ checkList,
      refAnyB db (otherChatsInteractions db chatId) x = false →
      (fetchChipPath db x).isSome :=
    fun x hx hf => hpaths x ((hmem2 x).mp hx) hf
  have hcollect := collectUnreferenced_ok db chatId checkList hresOthers hpaths2
  refine ⟨checkList, hmem2, ?_⟩
  have hops : delete_chat_ops db chatId = .ok
      (((checkList.filter
          (fun x => !(refAnyB db (otherChatsInteractions db chatId) x))).map
         (fun x => ((fetchChipPath db x).getD "", x))).map
         (fun y => DelOp.yieldChip y.1 y.2)
       ++ seq.map DelOp.delInteraction
       ++ (checkList.filter
            (fun x => !(refAnyB db (otherChatsInteractions db chatId) x))).map
           DelOp.delChip
       ++ [DelOp.delChat chatId]) := by
    unfold delete_chat_ops
    rw [hchat]
    show ((chipsToCheckGo db seq []) >>= fun chips =>
        (collectUnreferenced db chatId chips) >>= fun r =>
          Except.ok (r.1.map (fun y => DelOp.yieldChip y.1 y.2)
            ++ seq.map DelOp.delInteraction
            ++ r.2.map DelOp.delChip
            ++ [DelOp.delChat chatId])) = _
    rw [hrun, except_bind_ok, hcollect, except_bind_ok]
  unfold delete_chat
  rw [hops, except_bind_ok, except_pure_eq, Except.ok.injEq, Prod.mk.injEq]
  refine ⟨?_, ?_⟩
  · rw [List.filterMap_append, List.filterMap_append, List.filterMap_append]
    rw [filterMap_yieldOf_yields, filterMap_yieldOf_delInteractions,
        filterMap_yieldOf_delChips]
    simp [yieldOf]
  · rw [applyDelOps_append, applyDelOps_append, applyDelOps_append]
    rw [applyDelOps_yields, applyDelOps_delInteractions, applyDelOps_delChips]
    rfl

theorem refAnyB_iff (db : DBState) (l : List Nat) (x : Nat) :
    refAnyB db l x = true
      ↔ ∃ iid ∈ l, ∃ chips, fetchInteractionChips db iid = some chips ∧ x ∈ chips := by
  unfold refAnyB
  rw [List.any_eq_true]
  constructor
  · rintro ⟨iid, hiid, hp⟩
    rcases hfetch : fetchInteractionChips db iid with _ | chips
    · rw [hfetch] at hp
      simp at hp
    · rw [hfetch] at hp
      simp at hp
      exact ⟨iid, hiid, chips, hfetch, hp⟩
  · rintro ⟨iid, hiid, chips, hfetch, hx⟩
    refine ⟨iid, hiid, ?_⟩
    rw [hfetch]
    simpa using hx

theorem otherChats_mem (db : DBState) (chatId iid : Nat) :
    iid ∈ otherChatsInteractions db chatId
      ↔ ∃ c ∈ db.chats, ¬(c.1 = chatId) ∧ iid ∈ c.2 := by
  unfold otherChatsInteractions
  simp only [List.mem_join, List.mem_map, List.mem_filter]
  constructor
  · rintro ⟨s, ⟨c, ⟨hc, hcne⟩, rfl⟩, hiid⟩
    exact ⟨c, hc, by simpa using hcne, hiid⟩
  · rintro ⟨c, hc, hcne, hiid⟩
    exact ⟨c.2, ⟨c, ⟨hc, by simpa using hcne⟩, rfl⟩, hiid⟩

theorem usedByOthers_iff (db : DBState) (chatId x : Nat) :
    refAnyB db (otherChatsInteractions db chatId) x = true
      ↔ ∃ c ∈ db.chats, ¬(c.1 = chatId) ∧ ∃ iid ∈ c.2, ∃ chips,
          fetchInteractionChips db iid = some chips ∧ x ∈ chips := by
  rw [refAnyB_iff]
  constructor
  · rintro ⟨iid, hiid, chips, hfetch, hx⟩
    obtain ⟨c, hc, hcne, hmem⟩ := (otherChats_mem db chatId iid).mp hiid
    exact ⟨c, hc, hcne, iid, hmem, chips, hfetch, hx⟩
  · rintro ⟨c, hc, hcne, iid, hmem, chips, hfetch, hx⟩
    exact ⟨iid, (otherChats_mem db chatId iid).mpr ⟨c, hc, hcne, hmem⟩,
           chips, hfetch, hx⟩

theorem fetchChatSeq_mem {db : DBState} {chatId : Nat} {seq : List Nat}
    (h : fetchChatSeq db chatId = some seq) :
    ∃ c ∈ db.chats, c.1 = chatId ∧ c.2 = seq := by
  unfold fetchChatSeq at h
  rcases hfind : db.chats.find? (fun c => c.1 = chatId) with _ | c
  · rw [hfind] at h
    simp at h
  · rw [hfind] at h
    simp at h
    have hmem := List.mem_of_find?_eq_some hfind
    have hpred := List.find?_some hfind
    exact ⟨c, hmem, by simpa using hpred, h⟩

theorem fetchInteractionChips_mem {db : DBState} {iid : Nat} {chips : List Nat}
    (h : fetchInteractionChips db iid = some chips) :
    ∃ i ∈ db.interactions, i.1 = iid ∧ i.2 = chips := by
  unfold fetchInteractionChips at h
  rcases hfind : db.interactions.find? (fun i => i.1 = iid) with _ | i
  · rw [hfind] at h
    simp at h
  · rw [hfind] at h
    simp at h
    have hmem := List.mem_of_find?_eq_some hfind
    have hpred := List.find?_some hfind
    exact ⟨i, hmem, by simpa using hpred, h⟩

/-- The chips of the deleted chat that no other chat references. -/
def unusedFilter (db : DBState) (chatId : Nat) (L : List Nat) : List Nat :=
  L.filter (fun x => !(refAnyB db (otherChatsInteractions db chatId) x))

/-- The `(image_path, chip_id)` pairs `delete_chat` yields. -/
def yieldsOf (db : DBState) (chatId : Nat) (L : List Nat) : List (String × Nat) :=
  (unusedFilter db chatId L).map (fun x => ((fetchChipPath db x).getD "", x))

/-- The database state after a fully-consumed `delete_chat`. -/
def dbAfterDelete (db : DBState) (chatId : Nat) (seq : List Nat) (L : List Nat) :
    DBState :=
  ⟨db.chips.filter (fun c => !((unusedFilter db chatId L).contains c.1)),
   db.interactions.filter (fun i => !(seq.contains i.1)),
   db.chats.filter (fun c => !(c.1 = chatId))⟩

theorem delete_chat_ok2 (db : DBState) (chatId : Nat) (seq : List Nat)
    (hchat : fetchChatSeq db chatId = some seq)
    (hresSeq : ∀ iid ∈ seq, (fetchInteractionChips db iid).isSome)
    (hresOthers : ∀ iid ∈ otherChatsInteractions db chatId,
      (fetchInteractionChips db iid).isSome)
    (hpaths : ∀ x, refAnyB db seq x = true →
      refAnyB db (otherChatsInteractions db chatId) x = false →
      (fetchChipPath db x).isSome) :
    ∃ L : List Nat,
      (∀ x, x ∈ L ↔ refAnyB db seq x = true) ∧
      delete_chat db chatId
        = .ok (yieldsOf db chatId L, dbAfterDelete db chatId seq L) :=
  delete_chat_ok db chatId seq hchat hresSeq hresOthers hpaths

/-- C3: for chats `c1` and `c2` whose interactions both reference chip
`X` (and no other chat references `X`), `delete_chat c1` neither yields
`X`'s image path nor removes `X`'s row, and a subsequent
`delete_chat c2` then yields and removes `X`; moreover every chip the
first deletion yields is referenced by no interaction of any other
chat. -/
theorem chip_deleted_only_when_unreferenced
    (db : DBState) (c1 c2 X : Nat) (s1 s2 : List Nat)
    (hc1 : fetchChatSeq db c1 = some s1)
    (hc2 : fetchChatSeq db c2 = some s2)
    (hne : c1 ≠ c2)
    (hres : ∀ c ∈ db.chats, ∀ iid ∈ c.2, (fetchInteractionChips db iid).isSome)
    (hchips : ∀ i ∈ db.interactions, ∀ x ∈ i.2, (fetchChipPath db x).isSome)
    (hdisj : ∀ c ∈ db.chats, ¬(c.1 = c1) → ∀ iid ∈ c.2, iid ∉ s1)
    (hx1 : refAnyB db s1 X = true)
    (hx2 : refAnyB db s2 X = true)
    (honly : ∀ c ∈ db.chats, ¬(c.1 = c1) → ¬(c.1 = c2) → ∀ iid ∈ c.2,
      ∀ chips, fetchInteractionChips db iid = some chips → X ∉ chips) :
    ∃ y1 db1 y2 db2,
      delete_chat db c1 = .ok (y1, db1) ∧
      (∀ p, (p, X) ∉ y1) ∧
      X ∈ db1.chips.map (fun r => r.1) ∧
      delete_chat db1 c2 = .ok (y2, db2) ∧
      (∃ p, (p, X) ∈ y2) ∧
      X ∉ db2.chips.map (fun r => r.1) ∧
      (∀ pr ∈ y1, ¬ ∃ c ∈ db.chats, ¬(c.1 = c1) ∧ ∃ iid ∈ c.2, ∃ chips,
        fetchInteractionChips db iid = some chips ∧ pr.2 ∈ chips) := by
  obtain ⟨c1row, hc1mem, hc1id, hc1seq⟩ := fetchChatSeq_mem hc1
  obtain ⟨c2row, hc2mem, hc2id, hc2seq⟩ := fetchChatSeq_mem hc2
  have hc2ne1 : ¬(c2row.1 = c1) := by
    rw [hc2id]
    exact fun h => hne h.symm
  have hresSeq1 : ∀ iid ∈ s1, (fetchInteractionChips db iid).isSome := by
    intro iid hiid
    exact hres c1row hc1mem iid (by rw [hc1seq]; exact hiid)
  have hresOthers1 : ∀ iid ∈ otherChatsInteractions db c1,
      (fetchInteractionChips db iid).isSome := by
    intro iid hiid
    obtain ⟨c, hc, _, hmem⟩ := (otherChats_mem db c1 iid).mp hiid
    exact hres c hc iid hmem
  have hpathOf : ∀ (x : Nat) (l : List Nat), refAnyB db l x = true →
      (fetchChipPath db x).isSome := by
    intro x l hx
    obtain ⟨iid, _, chips, hfetch, hxin⟩ := (refAnyB_iff db l x).mp hx
    obtain ⟨i, himem, _, hichips⟩ := fetchInteractionChips_mem hfetch
    exact hchips i himem x (by rw [hichips]; exact hxin)
  obtain ⟨L1, hL1, hdel1⟩ := delete_chat_ok2 db c1 s1 hc1 hresSeq1 hresOthers1
    (fun x hx _ => hpathOf x s1 hx)
  -- chip X is referenced by chat c2, hence used-by-others for deletion 1
  have husedOf2 : ∀ x, refAnyB db s2 x = true →
      refAnyB db (otherChatsInteractions db c1) x = true := by
    intro x hx
    rw [usedByOthers_iff]
    obtain ⟨iid, hiid, chips, hfetch, hxin⟩ := (refAnyB_iff db s2 x).mp hx
    exact ⟨c2row, hc2mem, hc2ne1, iid, by rw [hc2seq]; exact hiid, chips, hfetch, hxin⟩
  have hXused1 : refAnyB db (otherChatsInteractions db c1) X = true := husedOf2 X hx2
  have hnotF1 : ∀ x, refAnyB db (otherChatsInteractions db c1) x = true →
      x ∉ unusedFilter db c1 L1 := by
    intro x hx hmem
    have := (List.mem_filter.mp hmem).2
    rw [hx] at this
    simp at this
  have hnotF1c : ∀ x, refAnyB db (otherChatsInteractions db c1) x = true →
      (unusedFilter db c1 L1).contains x = false := by
    intro x hx
    rw [Bool.eq_false_iff]
    intro hcon
    exact hnotF1 x hx (by simpa using hcon)
  -- conclusion: X's row survives deletion 1
  have hXrow : ∃ r ∈ db.chips, r.1 = X := by
    obtain ⟨pX, hpX⟩ := Option.isSome_iff_exists.mp (hpathOf X s1 hx1)
    unfold fetchChipPath at hpX
    rcases hfind : db.chips.find? (fun c => c.1 = X) with _ | r
    · rw [hfind] at hpX
      simp at hpX
    · exact ⟨r, List.mem_of_find?_eq_some hfind, by simpa using List.find?_some hfind⟩
  have hXin1 : X ∈ (dbAfterDelete db c1 s1 L1).chips.map (fun r => r.1) := by
    obtain ⟨r, hrmem, hrid⟩ := hXrow
    refine List.mem_map.mpr ⟨r, ?_, hrid⟩
    show r ∈ db.chips.filter (fun c => !((unusedFilter db c1 L1).contains c.1))
    rw [List.mem_filter]
    refine ⟨hrmem, ?_⟩
    rw [hrid, hnotF1c X hXused1]
    rfl
  -- lookups in the post-deletion database
  have hfetchI1 : ∀ iid : Nat, iid ∉ s1 →
      fetchInteractionChips (dbAfterDelete db c1 s1 L1) iid
        = fetchInteractionChips db iid := by
    intro iid hiid
    unfold fetchInteractionChips
    congr 1
    apply find?_filter_keep
    intro x hx
    have hxid : x.1 = iid := by simpa using hx
    rw [hxid]
    simpa using hiid
  have hfetchC1 : ∀ x : Nat, refAnyB db (otherChatsInteractions db c1) x = true →
      fetchChipPath (dbAfterDelete db c1 s1 L1) x = fetchChipPath db x := by
    intro x hx
    unfold fetchChipPath
    congr 1
    apply find?_filter_keep
    intro r hr
    have hrid : r.1 = x := by simpa using hr
    rw [hrid, hnotF1c x hx]
    rfl
  have hc2db1 : fetchChatSeq (dbAfterDelete db c1 s1 L1) c2 = some s2 := by
    unfold fetchChatSeq
    rw [show (dbAfterDelete db c1 s1 L1).chats
          = db.chats.filter (fun c => !(c.1 = c1)) from rfl]
    rw [find?_filter_keep _ _ _ ?_]
    · exact hc2
    · intro x hx
      have hxid : x.1 = c2 := by simpa using hx
      rw [hxid]
      simp
      exact fun h => hne h.symm
  have hdisj2 : ∀ iid ∈ s2, iid ∉ s1 := by
    intro iid hiid
    exact hdisj c2row hc2mem hc2ne1 iid (by rw [hc2seq]; exact hiid)
  have hresSeq2 : ∀ iid ∈ s2,
      (fetchInteractionChips (dbAfterDelete db c1 s1 L1) iid).isSome := by
    intro iid hiid
    rw [hfetchI1 iid (hdisj2 iid hiid)]
    exact hres c2row hc2mem iid (by rw [hc2seq]; exact hiid)
  have hchatmem1 : ∀ c, c ∈ (dbAfterDelete db c1 s1 L1).chats
      ↔ c ∈ db.chats ∧ ¬(c.1 = c1) := by
    intro c
    show c ∈ db.chats.filter (fun c => !(c.1 = c1)) ↔ _
    rw [List.mem_filter]
    simp
  have hresOthers2 : ∀ iid ∈ otherChatsInteractions (dbAfterDelete db c1 s1 L1) c2,
      (fetchInteractionChips (dbAfterDelete db c1 s1 L1) iid).isSome := by
    intro iid hiid
    obtain ⟨c, hc, _, hmem⟩ := (otherChats_mem _ c2 iid).mp hiid
    obtain ⟨hcdb, hcne1⟩ := (hchatmem1 c).mp hc
    rw [hfetchI1 iid (hdisj c hcdb hcne1 iid hmem)]
    exact hres c hcdb iid hmem
  have hrefs2 : ∀ x, refAnyB (dbAfterDelete db c1 s1 L1) s2 x = true
      ↔ refAnyB db s2 x = true := by
    intro x
    rw [refAnyB_iff, refAnyB_iff]
    constructor
    · rintro ⟨iid, hiid, chips, hfetch, hx⟩
      exact ⟨iid, hiid, chips,
        by rw [← hfetchI1 iid (hdisj2 iid hiid)]; exact hfetch, hx⟩
    · rintro ⟨iid, hiid, chips, hfetch, hx⟩
      exact ⟨iid, hiid, chips,
        by rw [hfetchI1 iid (hdisj2 iid hiid)]; exact hfetch, hx⟩
  have husedOthers2X : refAnyB (dbAfterDelete db c1 s1 L1)
      (otherChatsInteractions (dbAfterDelete db c1 s1 L1) c2) X = false := by
    rw [Bool.eq_false_iff]
    intro htrue
    obtain ⟨c, hc, hcne2, iid, hmem, chips, hfetch, hX⟩ :=
      (usedByOthers_iff _ c2 X).mp htrue
    obtain ⟨hcdb, hcne1⟩ := (hchatmem1 c).mp hc
    rw [hfetchI1 iid (hdisj c hcdb hcne1 iid hmem)] at hfetch
    exact honly c hcdb hcne1 hcne2 iid hmem chips hfetch hX
  have hpaths2 : ∀ x, refAnyB (dbAfterDelete db c1 s1 L1) s2 x = true →
      refAnyB (dbAfterDelete db c1 s1 L1)
        (otherChatsInteractions (dbAfterDelete db c1 s1 L1) c2) x = false →
      (fetchChipPath (dbAfterDelete db c1 s1 L1) x).isSome := by
    intro x hx _
    have hxdb : refAnyB db s2 x = true := (hrefs2 x).mp hx
    rw [hfetchC1 x (husedOf2 x hxdb)]
    exact hpathOf x s2 hxdb
  obtain ⟨L2, hL2, hdel2⟩ := delete_chat_ok2 (dbAfterDelete db c1 s1 L1) c2 s2
    hc2db1 hresSeq2 hresOthers2 hpaths2
  have hXF2 : X ∈ unusedFilter (dbAfterDelete db c1 s1 L1) c2 L2 := by
    unfold unusedFilter
    rw [List.mem_filter]
    refine ⟨(hL2 X).mpr ((hrefs2 X).mpr hx2), ?_⟩
    rw [husedOthers2X]
    rfl
  refine ⟨yieldsOf db c1 L1, dbAfterDelete db c1 s1 L1,
          yieldsOf (dbAfterDelete db c1 s1 L1) c2 L2,
          dbAfterDelete (dbAfterDelete db c1 s1 L1) c2 s2 L2,
          hdel1, ?_, hXin1, hdel2, ?_, ?_, ?_⟩
  · intro p hpmem
    obtain ⟨x0, hx0mem, hx0eq⟩ := List.mem_map.mp hpmem
    have hx0X : x0 = X := congrArg Prod.snd hx0eq
    subst hx0X
    exact hnotF1 x0 hXused1 hx0mem
  · exact ⟨(fetchChipPath (dbAfterDelete db c1 s1 L1) X).getD "",
           List.mem_map.mpr ⟨X, hXF2, rfl⟩⟩
  · intro hmem
    obtain ⟨r, hrmem, hrid⟩ := List.mem_map.mp hmem
    have hr2 := (List.mem_filter.mp hrmem).2
    rw [hrid] at hr2
    have : X ∉ unusedFilter (dbAfterDelete db c1 s1 L1) c2 L2 := by
      simpa using hr2
    exact this hXF2
  · intro pr hpr
    obtain ⟨x0, hx0mem, hx0eq⟩ := List.mem_map.mp hpr
    have hx02 : pr.2 = x0 := by rw [← hx0eq]
    rintro ⟨c, hc, hcne, iid, hmem, chips, hfetch, hprin⟩
    have hused : refAnyB db (otherChatsInteractions db c1) x0 = true := by
      rw [usedByOthers_iff]
      exact ⟨c, hc, hcne, iid, hmem, chips, hfetch, by rw [← hx02]; exact hprin⟩
    exact hnotF1 x0 hused hx0mem

/-- The C3 witness database: chats 100 and 200 each own one interaction
(10 and 20), both referencing chip 1. -/
def c3DB : DBState :=
  ⟨[(1, "p1.png")], [(10, [1]), (20, [1])], [(100, [10]), (200, [20])]⟩

/-- Witness for C3 at the concrete two-chat shared-chip database. -/
theorem chip_deleted_only_when_unreferenced_witness :
    (fetchChatSeq c3DB 100 = some [10] ∧
     fetchChatSeq c3DB 200 = some [20] ∧
     (100 : Nat) ≠ 200 ∧
     (∀ c ∈ c3DB.chats, ∀ iid ∈ c.2, (fetchInteractionChips c3DB iid).isSome) ∧
     (∀ i ∈ c3DB.interactions, ∀ x ∈ i.2, (fetchChipPath c3DB x).isSome) ∧
     (∀ c ∈ c3DB.chats, ¬(c.1 = 100) → ∀ iid ∈ c.2, iid ∉ ([10] : List Nat)) ∧
     refAnyB c3DB [10] 1 = true ∧
     refAnyB c3DB [20] 1 = true ∧
     (∀ c ∈ c3DB.chats, ¬(c.1 = 100) → ¬(c.1 = 200) → ∀ iid ∈ c.2,
        ∀ chips, fetchInteractionChips c3DB iid = some chips → 1 ∉ chips)) ∧
    (∃ y1 db1 y2 db2,
      delete_chat c3DB 100 = .ok (y1, db1) ∧
      (∀ p, (p, 1) ∉ y1) ∧
      1 ∈ db1.chips.map (fun r => r.1) ∧
      delete_chat db1 200 = .ok (y2, db2) ∧
      (∃ p, (p, 1) ∈ y2) ∧
      1 ∉ db2.chips.map (fun r => r.1) ∧
      (∀ pr ∈ y1, ¬ ∃ c ∈ c3DB.chats, ¬(c.1 = 100) ∧ ∃ iid ∈ c.2, ∃ chips,
        fetchInteractionChips c3DB iid = some chips ∧ pr.2 ∈ chips)) :=
  ⟨⟨by decide, by decide, by decide, by decide, by decide, by decide, by decide,
    by decide, by decide⟩,
   chip_deleted_only_when_unreferenced c3DB 100 200 1 [10] [20]
     (by decide) (by decide) (by decide) (by decide) (by decide) (by decide)
     (by decide) (by decide) (by decide)⟩

/-! ## Image downscaling (`load_image_base64_downscale_if_needed`, dock.py 1823-1893)

The provider limit configuration (`limits` in the api config) selects one of
three branches: a pixel-dimension limit (`image_px`), a file-size limit
(`image_mb`), or no limit.  The PIL image, PNG encoding and base64 payload are
elided; the model keeps the dimension arithmetic, which is what the claim is
about.  `fileSizeMb` stands for the measured size of the PNG encoding and
`sqrtFactor` for the value of `math.sqrt(max_mb / file_size_mb)` (the only
use of the square root).  Python's `round` is banker's rounding (`pyround`)
and `int` truncates toward zero (`pytrunc`). -/

/-- Provider image-limit policy, per dock.py 1833/1860/1881. -/
inductive LimitPolicy where
  | nolimit : LimitPolicy
  | maxPx (longestLimit shortestLimit : ℚ) : LimitPolicy
  | maxMb (fileSizeMb maxMbLimit sqrtFactor : ℚ) : LimitPolicy
deriving DecidableEq

/-- Python `round` on a rational: round half to even (banker's rounding). -/
def pyround (q : ℚ) : ℤ :=
  if q - ⌊q⌋ < 1/2 then ⌊q⌋
  else if 1/2 < q - ⌊q⌋ then ⌊q⌋ + 1
  else if ⌊q⌋ % 2 = 0 then ⌊q⌋ else ⌊q⌋ + 1

/-- Python `int` on a rational: truncation toward zero. -/
def pytrunc (q : ℚ) : ℤ := if q < 0 then -⌊-q⌋ else ⌊q⌋

/-- dock.py 1848: `scale_factor = min(1, factor_longest, factor_shortest)`. -/
def pxScaleFactor (origWidth origHeight : ℤ) (longestLimit shortestLimit : ℚ) : ℚ :=
  min 1 (min (longestLimit / ((max origWidth origHeight : ℤ) : ℚ))
             (shortestLimit / ((min origWidth origHeight : ℤ) : ℚ)))

/-- The dimension computation of `load_image_base64_downscale_if_needed`:
returns `(final_width, final_height, was_resized)`. -/
def load_image_base64_downscale_if_needed (origWidth origHeight : ℤ)
    (policy : LimitPolicy) : ℤ × ℤ × Bool :=
  match policy with
  | .nolimit => (origWidth, origHeight, false)
  | .maxPx longestLimit shortestLimit =>
      if longestLimit < ((max origWidth origHeight : ℤ) : ℚ) ∨
         shortestLimit < ((min origWidth origHeight : ℤ) : ℚ) then
        (pyround ((origWidth : ℚ) * pxScaleFactor origWidth origHeight longestLimit shortestLimit),
         pyround ((origHeight : ℚ) * pxScaleFactor origWidth origHeight longestLimit shortestLimit),
         true)
      else (origWidth, origHeight, false)
  | .maxMb fileSizeMb maxMbLimit sqrtFactor =>
      if maxMbLimit < fileSizeMb then
        if sqrtFactor < 1 then
          (pytrunc ((origWidth : ℚ) * sqrtFactor),
           pytrunc ((origHeight : ℚ) * sqrtFactor), true)
        else (origWidth, origHeight, false)
      else (origWidth, origHeight, false)

/-- Banker's rounding never exceeds an integer upper bound of its argument. -/
lemma pyround_le (q : ℚ) (n : ℤ) (h : q ≤ (n : ℚ)) : pyround q ≤ n := by
  have hf : ⌊q⌋ ≤ n := by
    have := Int.floor_mono h
    simpa using this
  have hfl : (⌊q⌋ : ℚ) ≤ q := Int.floor_le q
  unfold pyround
  split_ifs with h1 h2 h3
  · exact hf
  · have hlt : (⌊q⌋ : ℚ) < (n : ℚ) := by linarith
    have : ⌊q⌋ < n := by exact_mod_cast hlt
    omega
  · exact hf
  · have heq : q - ⌊q⌋ = 1/2 := le_antisymm (not_lt.1 h2) (not_lt.1 h1)
    have hlt : (⌊q⌋ : ℚ) < (n : ℚ) := by linarith
    have : ⌊q⌋ < n := by exact_mod_cast hlt
    omega

/-- Truncation toward zero never exceeds a nonnegative integer upper bound. -/
lemma pytrunc_le (q : ℚ) (n : ℤ) (hn : 0 ≤ n) (h : q ≤ (n : ℚ)) : pytrunc q ≤ n := by
  unfold pytrunc
  split_ifs with h1
  · have : 0 ≤ ⌊-q⌋ := by
      rw [Int.le_floor]
      push_cast
      linarith
    omega
  · have := Int.floor_mono h
    simpa using this

/-- C9: for every image with positive dimensions and every provider limit
policy, the payload builder never upscales: the final width is at most the
original width and the final height is at most the original height, in the
pixel-limit branch (scale factor capped at 1), the file-size branch (resize
only when the scaling factor is below 1) and the no-limit branch. -/
theorem downscale_never_upscales (ow oh : ℤ) (policy : LimitPolicy)
    (hw : 0 < ow) (hh : 0 < oh) :
    (load_image_base64_downscale_if_needed ow oh policy).1 ≤ ow ∧
    (load_image_base64_downscale_if_needed ow oh policy).2.1 ≤ oh := by
  have how : (0:ℚ) ≤ (ow:ℚ) := by exact_mod_cast hw.le
  have hoh : (0:ℚ) ≤ (oh:ℚ) := by exact_mod_cast hh.le
  cases policy with
  | nolimit => exact ⟨le_refl _, le_refl _⟩
  | maxPx L S =>
      simp only [load_image_base64_downscale_if_needed]
      split_ifs with hcond
      · refine ⟨pyround_le _ _ ?_, pyround_le _ _ ?_⟩
        · exact mul_le_of_le_one_right how (min_le_left _ _)
        · exact mul_le_of_le_one_right hoh (min_le_left _ _)
      · exact ⟨le_refl _, le_refl _⟩
  | maxMb f m s =>
      simp only [load_image_base64_downscale_if_needed]
      split_ifs with h1 h2
      · refine ⟨pytrunc_le _ _ hw.le ?_, pytrunc_le _ _ hh.le ?_⟩
        · exact mul_le_of_le_one_right how h2.le
        · exact mul_le_of_le_one_right hoh h2.le
      · exact ⟨le_refl _, le_refl _⟩
      · exact ⟨le_refl _, le_refl _⟩

/-- Witness for C9 at a concrete 100x50 image under a 40px/40px limit. -/
theorem downscale_never_upscales_witness :
    ((0:ℤ) < 100 ∧ (0:ℤ) < 50) ∧
    ((load_image_base64_downscale_if_needed 100 50 (.maxPx 40 40)).1 ≤ 100 ∧
     (load_image_base64_downscale_if_needed 100 50 (.maxPx 40 40)).2.1 ≤ 50) :=
  ⟨⟨by decide, by decide⟩,
   downscale_never_upscales 100 50 (.maxPx 40 40) (by decide) (by decide)⟩
